import Mathlib

/-!
Verification development for the `fake-class-planner` repository.

The Python sources (`course_data.py`, `app_production.py`) are shallowly
embedded below: pure fragments become Lean functions, the Flask POST handler
becomes a state-passing function, Python `dict`s become insertion-ordered
association lists, and `datetime` values become day counts / seconds since
midnight.  All definitions are translated from the source code; definitions
whose names contain `spec` restate sentences of the design document and are
only used on the specification side of theorems.
-/

namespace Planner

/-! ## Time-of-day parsing

`course_data._time_overlap` calls `datetime.strptime(s, '%H:%M:%S')`.
CPython compiles that format to the regex
`(2[0-3]|[0-1]\d|\d):([0-5]\d|\d):(6[0-1]|[0-5]\d|\d)` anchored at both ends,
i.e. the string is decomposed at its colons and each field must be one digit,
or two digits within the stated bound.  `datetime` then rejects the leap
seconds 60/61 that the regex admits, raising `ValueError`.  We model a parsed
`time` value as its count of seconds since midnight (the `time` order is
lexicographic on (h, m, s), which agrees with that count). -/

/-- Numeric value of a digit character. -/
def digitVal (c : Char) : Nat := c.toNat - 48

/-- One `strptime` numeric field: one digit (any value), or two digits whose
value is at most `maxTwo`.  This mirrors the alternations `2[0-3]|[0-1]\d|\d`
(`maxTwo = 23`), `[0-5]\d|\d` (`maxTwo = 59`) and `6[0-1]|[0-5]\d|\d`
(`maxTwo = 61`). -/
def fieldVal (maxTwo : Nat) : List Char → Option Nat
  | [c] => if c.isDigit then some (digitVal c) else none
  | [c1, c2] =>
    if c1.isDigit && c2.isDigit then
      let v := digitVal c1 * 10 + digitVal c2
      if v ≤ maxTwo then some v else none
    else none
  | _ => none

/-- Split a character list at every colon (the colons in the format string are
literal characters of the compiled regex, so a match decomposes the input at
exactly its colon occurrences). -/
def splitColon : List Char → List (List Char)
  | [] => [[]]
  | c :: cs =>
    let r := splitColon cs
    if c = ':' then [] :: r
    else
      match r with
      | [] => [[c]]
      | h :: t => (c :: h) :: t

/-- `datetime.strptime(s, '%H:%M:%S').time()` as seconds since midnight;
`none` when Python raises `ValueError` (which `_time_overlap` catches). -/
def strptimeHMS (s : String) : Option Nat :=
  match splitColon s.data with
  | [hf, mf, sf] =>
    match fieldVal 23 hf, fieldVal 59 mf, fieldVal 61 sf with
    | some h, some m, some sec =>
      -- the datetime constructor rejects leap seconds
      if 60 ≤ sec then none else some (h * 3600 + m * 60 + sec)
    | _, _, _ => none
  | _ => none

/-- Seconds since midnight of a parsed time string (0 when unparsable); only
used on strings that `wellFormedHMS` accepts. -/
def hmsVal (s : String) : Nat := (strptimeHMS s).getD 0

/-- A well-formed `"HH:MM:SS"` string: exactly two digits per field, hours
below 24, minutes and seconds below 60. -/
def wellFormedHMS (s : String) : Bool :=
  match s.data with
  | [h1, h2, c1, m1, m2, c2, s1, s2] =>
    (c1 == ':') && (c2 == ':')
      && h1.isDigit && h2.isDigit && m1.isDigit && m2.isDigit && s1.isDigit && s2.isDigit
      && decide (digitVal h1 * 10 + digitVal h2 < 24)
      && decide (digitVal m1 * 10 + digitVal m2 < 60)
      && decide (digitVal s1 * 10 + digitVal s2 < 60)
  | _ => false

/-- `course_data._time_overlap`: parse all four times; any failure is caught
by the bare `except` and reported as "no overlap"; otherwise
`not (end1 <= start2 or end2 <= start1)`. -/
def _time_overlap (start1 end1 start2 end2 : String) : Bool :=
  match strptimeHMS start1, strptimeHMS end1, strptimeHMS start2, strptimeHMS end2 with
  | some s1, some e1, some s2, some e2 => !(decide (e1 ≤ s2) || decide (e2 ≤ s1))
  | _, _, _, _ => false

/-! ## Conflict detection (`course_data.get_time_conflict`) -/

/-- One expanded interval record `{day, start, end, course}` as appended by
`get_time_conflict`'s expansion loop. -/
structure IntervalRec where
  day : String
  start : String
  endT : String
  course : String
deriving DecidableEq

/-- The pair test of `get_time_conflict`'s double loop:
`slot1['day'] == slot2['day'] and self._time_overlap(...)`. -/
def conflictCond (r1 r2 : IntervalRec) : Bool :=
  r1.day == r2.day && _time_overlap r1.start r1.endT r2.start r2.endT

/-- The double loop `for i in range(n): for j in range(i+1, n)` of
`get_time_conflict`, appending `(slot1['course'], slot2['course'])` for each
conflicting pair, in emission order. -/
def conflictPairs : List IntervalRec → List (String × String)
  | [] => []
  | r :: rest =>
    rest.filterMap (fun t => if conflictCond r t then some (r.course, t.course) else none)
      ++ conflictPairs rest

/-- All ordered pairs `(l[i], l[j])` with `i < j`, in the double loop's
visiting order (specification-side description of the pair enumeration). -/
def pairList {α : Type} : List α → List (α × α)
  | [] => []
  | x :: l => l.map (fun y => (x, y)) ++ pairList l

/-! ## Data model

`process_courses` builds nested Python `dict`s; we model a `dict` as an
insertion-ordered association list (`List (String × β)`), with `dict`
assignment `dictInsert` replacing in place or appending, and `dict` lookup
`List.lookup`. -/

structure TimeSlot where
  days : List String
  start_time : String
  end_time : String
  venue : String
  instructor : String
deriving DecidableEq

structure Subclass where
  label : String
  sect : String          -- `'section'` in the source; `section` is reserved in Lean
  class_number : String
  instructor : String
  time_slots : List TimeSlot
deriving DecidableEq

structure Course where
  code : String
  title : String
  department : String
  term : String
  career : String
  semester : String
  subclasses : List (String × Subclass)
deriving DecidableEq

/-- `courses_by_semester`, a dict with the four fixed keys. -/
structure Catalog where
  sem1 : List (String × Course)
  sem2 : List (String × Course)
  summer : List (String × Course)
  other : List (String × Course)
deriving DecidableEq

/-- `processed_courses.get(semester, {})` (`get_courses_by_semester`). -/
def Catalog.get (c : Catalog) (semester : String) : List (String × Course) :=
  if semester = "Sem1" then c.sem1
  else if semester = "Sem2" then c.sem2
  else if semester = "Summer" then c.summer
  else if semester = "Other" then c.other
  else []

/-- Python `dict` assignment `m[k] = v`: replaces the value in place when the
key is present, appends a new binding otherwise. -/
def dictInsert {β : Type} (m : List (String × β)) (k : String) (v : β) : List (String × β) :=
  if m.any (fun p => p.1 == k) then
    m.map (fun p => if p.1 == k then (k, v) else p)
  else m ++ [(k, v)]

def Catalog.insert (c : Catalog) (semester code : String) (course : Course) : Catalog :=
  if semester = "Sem1" then { c with sem1 := dictInsert c.sem1 code course }
  else if semester = "Sem2" then { c with sem2 := dictInsert c.sem2 code course }
  else if semester = "Summer" then { c with summer := dictInsert c.summer code course }
  else if semester = "Other" then { c with other := dictInsert c.other code course }
  else c

/-- `get_course_by_code_and_semester`. -/
def get_course_by_code_and_semester (cat : Catalog) (course_code semester : String) :
    Option Course :=
  (cat.get semester).lookup course_code

/-- One `{'course_code': ..., 'subclass': ...}` entry of a stored schedule. -/
structure ScheduleItem where
  course_code : String
  subclass : String
deriving DecidableEq

/-- The record appended for one (slot, day):
`{'day': day, 'start': ..., 'end': ..., 'course': f"{course_code} ({subclass_label})"}`. -/
def slotRec (code label : String) (ts : TimeSlot) (day : String) : IntervalRec :=
  { day := day, start := ts.start_time, endT := ts.end_time,
    course := code ++ " (" ++ label ++ ")" }

/-- The interval-expansion loop of `get_time_conflict`: for each selection
that resolves, one record per time slot per day. -/
def expandSlots (cat : Catalog) (schedule : List ScheduleItem) (semester : String) :
    List IntervalRec :=
  schedule.flatMap (fun item =>
    match get_course_by_code_and_semester cat item.course_code semester with
    | some course =>
      match course.subclasses.lookup item.subclass with
      | some sc =>
        sc.time_slots.flatMap (fun ts =>
          ts.days.map (slotRec item.course_code item.subclass ts))
      | none => []
    | none => [])

/-- `course_data.get_time_conflict`. -/
def get_time_conflict (cat : Catalog) (schedule : List ScheduleItem) (semester : String) :
    List (String × String) :=
  conflictPairs (expandSlots cat schedule semester)

/-- Python's substring test `a in b` (contiguous containment). -/
def substrB (a b : String) : Bool := decide (a.toList <:+: b.toList)

/-- `str.lower()`, characterwise. -/
def strLower (s : String) : String := String.mk (s.data.map Char.toLower)

/-- `str.upper()`, characterwise. -/
def strUpper (s : String) : String := String.mk (s.data.map Char.toUpper)

/-- `course_data.search_courses`: the result-accumulating loop, verbatim. -/
def search_courses (cat : Catalog) (query department semester : String) : List Course :=
  let semester_courses := cat.get semester
  let q := strLower query
  let d := strUpper department
  semester_courses.foldl (fun results p =>
    let m1 := if q ≠ "" then (substrB q (strLower p.1) || substrB q (strLower p.2.title))
      else true
    let m2 := if d ≠ "" && m1 then substrB d (strUpper p.2.department) else m1
    if m2 then results ++ [p.2] else results) []

/-- Specification-side search filter: the two substring conditions ANDed,
each vacuous when its filter string is empty. -/
def searchPredSpec (query department : String) (p : String × Course) : Bool :=
  (strLower query == "" || substrB (strLower query) (strLower p.1)
      || substrB (strLower query) (strLower p.2.title))
    && (strUpper department == "" || substrB (strUpper department) (strUpper p.2.department))

/-! ## Timetable builder (`course_data.process_courses`)

`pandas.groupby(k)` iterates the distinct keys in sorted order, each group
keeping the original row order; a `defaultdict` keeps keys in first-seen
order.  Both groupings are modelled as (ordered distinct keys, filter by
key). -/

/-- One spreadsheet row; `none` models a NaN/absent cell. -/
structure Row where
  course_code : Option String
  class_section : Option String
  class_number : Option String
  start_time : Option String
  end_time : Option String
  venue : Option String
  instructor : Option String
  course_title : Option String
  offer_dept : Option String
  term : Option String
  acad_career : Option String
  mon : Bool
  tue : Bool
  wed : Bool
  thu : Bool
  fri : Bool
  sat : Bool
  sun : Bool
deriving DecidableEq

/-- `str(x) if pd.notna(x) else ''`. -/
def strOf (o : Option String) : String := o.getD ""

/-- `str.startswith(c)` for a one-character prefix. -/
def startsWith1 (s : String) (c : Char) : Bool :=
  match s.data with
  | [] => false
  | c0 :: _ => c0 == c

/-- `get_semester_from_section`. -/
def get_semester_from_section (sectionStr : String) : String :=
  if startsWith1 sectionStr '1' then "Sem1"
  else if startsWith1 sectionStr '2' then "Sem2"
  else if startsWith1 sectionStr 'S' then "Summer"
  else "Other"

/-- The precomputed SEMESTER column: `get_semester_from_section` on the raw
cell (`str` of a missing cell is `"nan"`, which falls into `Other`). -/
def rowSemester (r : Row) : String :=
  get_semester_from_section (r.class_section.getD "nan")

/-- The `days` list built by testing the seven flag columns in the fixed
order MON..SUN. -/
def rowDays (r : Row) : List String :=
  (if r.mon then ["MON"] else []) ++ (if r.tue then ["TUE"] else [])
    ++ (if r.wed then ["WED"] else []) ++ (if r.thu then ["THU"] else [])
    ++ (if r.fri then ["FRI"] else []) ++ (if r.sat then ["SAT"] else [])
    ++ (if r.sun then ["SUN"] else [])

/-- The normalized `entry` dict built per row. -/
structure Entry where
  sect : String
  days : List String
  start_time : String
  end_time : String
  venue : String
  instructor : String
  class_number : String
deriving DecidableEq

def rowEntry (r : Row) : Entry :=
  { sect := strOf r.class_section, days := rowDays r, start_time := strOf r.start_time,
    end_time := strOf r.end_time, venue := strOf r.venue, instructor := strOf r.instructor,
    class_number := strOf r.class_number }

/-- Distinct elements in first-seen order, with an explicit seen-set
accumulator. -/
def firstDedupAux {α : Type} [DecidableEq α] (seen : List α) : List α → List α
  | [] => []
  | a :: l => if a ∈ seen then firstDedupAux seen l else a :: firstDedupAux (a :: seen) l

/-- Distinct elements in first-seen order (key order of a `defaultdict`,
key-visiting order of a `groupby` before sorting). -/
def firstDedup {α : Type} [DecidableEq α] (l : List α) : List α := firstDedupAux [] l

/-- Lexicographic code-point comparison of character lists (Python string
`<=`). -/
def charListLe : List Char → List Char → Bool
  | [], _ => true
  | _ :: _, [] => false
  | a :: as, b :: bs => if a = b then charListLe as bs else decide (a.toNat < b.toNat)

/-- Python `sorted` on strings (lexicographic by code point, stable). -/
def sortStr (l : List String) : List String :=
  List.insertionSort (fun a b => charListLe a.data b.data = true) l

/-- `tuple(sorted(entry['days']))`, the dedup key of a time slot. -/
def daysKey (days : List String) : List String := sortStr days

def entryToSlot (e : Entry) : TimeSlot :=
  { days := e.days, start_time := e.start_time, end_time := e.end_time,
    venue := e.venue, instructor := e.instructor }

/-- The `for entry in class_entries` loop building `time_slots`: `seen`
models the `processed_day_combinations` set, `slots` the growing list. -/
def slotsLoop (seen : List (List String)) (slots : List TimeSlot) :
    List Entry → List TimeSlot
  | [] => slots
  | e :: rest =>
    if daysKey e.days ∈ seen then slotsLoop seen slots rest
    else slotsLoop (daysKey e.days :: seen) (slots ++ [entryToSlot e]) rest

/-- The subclass built for one CLASS NUMBER group (`none` for the
`if not class_entries: continue` branch). -/
def mkSubclass (class_number : String) : List Entry → Option Subclass
  | [] => none
  | e :: rest =>
    some { label := e.sect, sect := e.sect, class_number := class_number,
           instructor := e.instructor, time_slots := slotsLoop [] [] (e :: rest) }

/-- The `entries_by_class_number` loop followed by
`subclasses[subclass_label] = {...}`. -/
def subclassesOf (entries : List Entry) : List (String × Subclass) :=
  (firstDedup (entries.map (fun e => e.class_number))).foldl (fun acc cn =>
    match mkSubclass cn (entries.filter (fun e => e.class_number == cn)) with
    | some sc => dictInsert acc sc.label sc
    | none => acc) []

/-- The course dict assigned to `courses_by_semester[semester][course_code]`;
`info` is `course_group.iloc[0]`. -/
def mkCourse (code semester : String) (info : Row) (entries : List Entry) : Course :=
  { code := code, title := strOf info.course_title, department := strOf info.offer_dept,
    term := strOf info.term, career := strOf info.acad_career, semester := semester,
    subclasses := subclassesOf entries }

/-- `valid_df = self.df.dropna(subset=['COURSE CODE'])`. -/
def validRows (rows : List Row) : List Row := rows.filter (fun r => r.course_code.isSome)

/-- The rows of one `course_code` group, in input order. -/
def courseGroup (valid : List Row) (code : String) : List Row :=
  valid.filter (fun r => r.course_code == some code)

/-- The semester keys of `course_group.groupby('SEMESTER')` (sorted). -/
def semKeys (group : List Row) : List String :=
  sortStr (firstDedup (group.map rowSemester))

/-- The `entries` list of one (course, semester) group. -/
def semGroupEntries (group : List Row) (semester : String) : List Entry :=
  (group.filter (fun r => rowSemester r == semester)).map rowEntry

/-- The body of the outer `for course_code, course_group` loop. -/
def addCourse (valid : List Row) (cat : Catalog) (code : String) : Catalog :=
  let group := courseGroup valid code
  match group.head? with
  | none => cat
  | some info =>
    (semKeys group).foldl (fun cat semester =>
      let entries := semGroupEntries group semester
      if entries.isEmpty then cat
      else cat.insert semester code (mkCourse code semester info entries)) cat

/-- The course-code keys of `valid_df.groupby('COURSE CODE')` (sorted). -/
def sortedCodes (rows : List Row) : List String :=
  sortStr (firstDedup ((validRows rows).filterMap (fun r => r.course_code)))

/-- `course_data.process_courses`. -/
def process_courses (rows : List Row) : Catalog :=
  (sortedCodes rows).foldl (addCourse (validRows rows)) ⟨[], [], [], []⟩

/-- Specification-side first-occurrence dedup: keep an element iff no earlier
element has the same key. -/
def keepFirstsBy {α β : Type} [DecidableEq β] (key : α → β) : List α → List α
  | [] => []
  | a :: l => a :: keepFirstsBy key (l.filter (fun b => key b ≠ key a))
termination_by l => l.length
decreasing_by simp only [List.length_cons]; exact Nat.lt_succ_of_le (List.length_filter_le _ _)

/-! ## Schedule API (`app_production.api_schedule`, POST branch)

The session value `schedule_{semester}` is passed in and the (possibly
updated) value is returned alongside the HTTP outcome. -/

/-- One stored schedule entry (the dict appended on success). -/
structure StoredItem where
  course_code : String
  subclass : String
  course_title : String
  semester : String
deriving DecidableEq

inductive PostResult where
  | missingParams : PostResult
  | invalidCourse : PostResult
  | alreadyInSchedule : PostResult
  | timeConflict : List (String × String) → PostResult
  | success : List StoredItem → PostResult
deriving DecidableEq

def toScheduleItem (it : StoredItem) : ScheduleItem :=
  { course_code := it.course_code, subclass := it.subclass }

/-- The POST branch of `api_schedule`.  A missing request field and an empty
string are both falsy in `if not course_code or not subclass`, so parameters
are plain strings with `""` for absent. -/
def api_schedule_post (cat : Catalog) (stored : List StoredItem)
    (course_code subclass semester : String) : PostResult × List StoredItem :=
  if course_code = "" ∨ subclass = "" then (.missingParams, stored)
  else
    match get_course_by_code_and_semester cat course_code semester with
    | none => (.invalidCourse, stored)
    | some course =>
      if (course.subclasses.lookup subclass).isNone then (.invalidCourse, stored)
      else if stored.any (fun it => it.course_code == course_code) then
        (.alreadyInSchedule, stored)
      else
        let new_schedule := stored.map toScheduleItem ++ [⟨course_code, subclass⟩]
        let conflicts := get_time_conflict cat new_schedule semester
        if conflicts.isEmpty then
          let updated := stored ++ [⟨course_code, subclass, course.title, semester⟩]
          (.success updated, updated)
        else (.timeConflict conflicts, stored)

/-! ## Calendar export (`app_production.generate_ics_calendar`)

`datetime` dates are modelled as day counts (days since 0000-03-01 in the
proleptic Gregorian calendar, Hinnant's `days_from_civil` algorithm shifted
to ℕ); a `time` is seconds since midnight. -/

/-- Days since 0000-03-01 of the civil date `(y, m, d)`. -/
def daysFromCivil (y m d : Nat) : Nat :=
  let yy := if m ≤ 2 then y - 1 else y
  let era := yy / 400
  let yoe := yy % 400
  let mp := if 2 < m then m - 3 else m + 9
  let doy := (153 * mp + 2) / 5 + (d - 1)
  let doe := yoe * 365 + yoe / 4 - yoe / 100 + doy
  era * 146097 + doe

/-- Civil date of a day-of-era (inverse of `daysFromCivil` within one
400-year era). -/
def civilOfDoe (doe : Nat) : Nat × Nat × Nat :=
  let yoe := (doe + doe / 36524 - doe / 1460 - doe / 146096) / 365
  let doy := doe - (365 * yoe + yoe / 4 - yoe / 100)
  let mp := (5 * doy + 2) / 153
  let d := doy + 1 - (153 * mp + 2) / 5
  let m := if mp < 10 then mp + 3 else mp - 9
  (if m ≤ 2 then yoe + 1 else yoe, m, d)

def civilFromDays (z : Nat) : Nat × Nat × Nat :=
  let c := civilOfDoe (z % 146097)
  (c.1 + (z / 146097) * 400, c.2.1, c.2.2)

/-- Python `datetime.weekday()` (Monday = 0): `daysFromCivil 2025 9 1`, a
Monday, is `739800 ≡ 5 [MOD 7]`, fixing the offset 2. -/
def weekday (rd : Nat) : Nat := (rd + 2) % 7

/-- `day_mapping.get(day)`. -/
def day_mapping (day : String) : Option Nat :=
  if day = "MON" then some 0 else if day = "TUE" then some 1
  else if day = "WED" then some 2 else if day = "THU" then some 3
  else if day = "FRI" then some 4 else if day = "SAT" then some 5
  else if day = "SUN" then some 6 else none

/-- `while current.weekday() != target_weekday: current += timedelta(days=1)`.
Weekdays cycle with period 7, so the loop advances at most six days; it is
modelled with fuel 7, which is never exhausted. -/
def advanceLoop : Nat → Nat → Nat → Nat
  | 0, cur, _ => cur
  | fuel + 1, cur, target => if weekday cur = target then cur else advanceLoop fuel (cur + 1) target

def firstWeekdayOnOrAfter (startRd target : Nat) : Nat := advanceLoop 7 startRd target

/-- `get_semester_dates` (start, end) as day counts; `currentYear` is
`datetime.now().year` and `todayRd` today's date (used by the default
branch only). -/
def get_semester_dates (semester : String) (currentYear todayRd : Nat) : Nat × Nat :=
  if semester = "Sem1" then (daysFromCivil currentYear 9 1, daysFromCivil currentYear 12 20)
  else if semester = "Sem2" then (daysFromCivil currentYear 2 1, daysFromCivil currentYear 5 31)
  else if semester = "Summer" then (daysFromCivil currentYear 6 1, daysFromCivil currentYear 8 31)
  else (todayRd, todayRd + 112)

/-- `'%H:%M'` parsing (compiled regex `(2[0-3]|[0-1]\d|\d):([0-5]\d|\d)`). -/
def strptimeHM (s : String) : Option Nat :=
  match splitColon s.data with
  | [hf, mf] =>
    match fieldVal 23 hf, fieldVal 59 mf with
    | some h, some m => some (h * 3600 + m * 60)
    | _, _ => none
  | _ => none

/-- Time parsing in `create_recurring_events`: `'%H:%M:%S'` for length-8
strings, `'%H:%M'` otherwise. -/
def parseTimeExport (s : String) : Option Nat :=
  if s.length = 8 then strptimeHMS s else strptimeHM s

/-- Zero-padded decimal digits, as `strftime` produces them. -/
def digitChar (n : Nat) : Char := Char.ofNat (48 + n % 10)

def pad2 (n : Nat) : String := String.mk [digitChar (n / 10), digitChar n]

def pad4 (n : Nat) : String :=
  String.mk [digitChar (n / 1000), digitChar (n / 100), digitChar (n / 10), digitChar n]

/-- `strftime('%Y%m%d')`. -/
def fmtDate (rd : Nat) : String :=
  let c := civilFromDays rd
  pad4 c.1 ++ pad2 c.2.1 ++ pad2 c.2.2

/-- `strftime('%H%M%S')` of a seconds-since-midnight value. -/
def fmtTime (secs : Nat) : String := pad2 (secs / 3600) ++ pad2 (secs % 3600 / 60) ++ pad2 (secs % 60)

/-- `format_datetime_tz`, i.e. `strftime('%Y%m%dT%H%M%S')`. -/
def fmtDateTime (rd secs : Nat) : String := fmtDate rd ++ "T" ++ fmtTime secs

/-- One `VEVENT` block, by field.  `uid` is the `uid` variable of the source
(the rendered line appends the constant `@course-planner.local`); `created`
stands for the export-time `CREATED`/`LAST-MODIFIED` timestamps. -/
structure Event where
  uid : String
  dtstart : String
  dtend : String
  rrule : String
  summary : String
  description : String
  location : String
  created : String
deriving DecidableEq

/-- `create_recurring_events`: `none` models `return []` (unknown day code or
`ValueError` while parsing the times). -/
def create_recurring_events (course : Course) (time_slot : TimeSlot) (day : String)
    (startRd endRd : Nat) (course_code subclass_label : String) (nowStr : String) :
    Option Event :=
  match day_mapping day with
  | none => none
  | some target =>
    let current := firstWeekdayOnOrAfter startRd target
    match parseTimeExport time_slot.start_time, parseTimeExport time_slot.end_time with
    | some st, some et =>
      let event_start := fmtDateTime current st
      some { uid := course_code ++ "-" ++ subclass_label ++ "-" ++ day ++ "-" ++ event_start,
             dtstart := event_start,
             dtend := fmtDateTime current et,
             -- RRULE bound: end date combined with `datetime.max.time()`
             rrule := "FREQ=WEEKLY;UNTIL=" ++ fmtDate endRd ++ "T235959",
             summary := course_code ++ " - " ++ course.title,
             description := "Course: " ++ course_code ++ "\\nClass: " ++ subclass_label
               ++ "\\nInstructor: " ++ time_slot.instructor,
             location := time_slot.venue,
             created := nowStr }
    | _, _ => none

/-- The event-emitting loops of `generate_ics_calendar` (the surrounding
header/footer lines carry no per-event data). -/
def exportEvents (cat : Catalog) (schedule : List ScheduleItem) (semester : String)
    (currentYear todayRd : Nat) (nowStr : String) : List Event :=
  let dates := get_semester_dates semester currentYear todayRd
  schedule.flatMap (fun item =>
    match get_course_by_code_and_semester cat item.course_code semester with
    | some course =>
      match course.subclasses.lookup item.subclass with
      | some sc =>
        sc.time_slots.flatMap (fun ts =>
          ts.days.filterMap (fun day =>
            create_recurring_events course ts day dates.1 dates.2
              item.course_code item.subclass nowStr))
      | none => []
    | none => [])

/-- Specification-side enumeration of the (selection, slot, weekday) triples
the export loops visit, in visiting order. -/
structure ExportTriple where
  course : Course
  code : String
  label : String
  slot : TimeSlot
  day : String
deriving DecidableEq

def itemTriples (cat : Catalog) (semester : String) (item : ScheduleItem) :
    List ExportTriple :=
  match get_course_by_code_and_semester cat item.course_code semester with
  | some course =>
    match course.subclasses.lookup item.subclass with
    | some sc =>
      sc.time_slots.flatMap (fun ts =>
        ts.days.map (fun day => ⟨course, item.course_code, item.subclass, ts, day⟩))
    | none => []
  | none => []

def exportTriples (cat : Catalog) (schedule : List ScheduleItem) (semester : String) :
    List ExportTriple :=
  schedule.flatMap (itemTriples cat semester)

/-- The interval record of one export triple (the same record the conflict
check expands). -/
def tripleRec (tr : ExportTriple) : IntervalRec := slotRec tr.code tr.label tr.slot tr.day

/-- The event of one export triple. -/
def tripleEvent (semester : String) (year todayRd : Nat) (nowStr : String)
    (tr : ExportTriple) : Option Event :=
  create_recurring_events tr.course tr.slot tr.day
    (get_semester_dates semester year todayRd).1
    (get_semester_dates semester year todayRd).2 tr.code tr.label nowStr

/-! ## Concrete example data -/

/-- Two Sem1 courses with overlapping Monday slots in `"HH:MM"` format. -/
def slotHM1 : TimeSlot := ⟨["MON"], "09:00", "10:00", "Room A", "Dr. A"⟩

def slotHM2 : TimeSlot := ⟨["MON"], "09:30", "10:30", "Room B", "Dr. B"⟩

def catHM : Catalog :=
  ⟨[("COMP101", ⟨"COMP101", "Intro to CS", "CS", "2025-26", "UG", "Sem1",
      [("1A", ⟨"1A", "1A", "1001", "Dr. A", [slotHM1]⟩)]⟩),
    ("COMP102", ⟨"COMP102", "Data Structures", "CS", "2025-26", "UG", "Sem1",
      [("1B", ⟨"1B", "1B", "1002", "Dr. B", [slotHM2]⟩)]⟩)], [], [], []⟩

def schedHM : List ScheduleItem := [⟨"COMP101", "1A"⟩, ⟨"COMP102", "1B"⟩]

/-- The same two courses with `"HH:MM:SS"` times. -/
def slotA : TimeSlot := ⟨["MON"], "09:00:00", "10:00:00", "Room A", "Dr. A"⟩

def slotB : TimeSlot := ⟨["MON"], "09:30:00", "10:30:00", "Room B", "Dr. B"⟩

def courseA : Course :=
  ⟨"COMP101", "Intro to CS", "CS", "2025-26", "UG", "Sem1",
    [("1A", ⟨"1A", "1A", "1001", "Dr. A", [slotA]⟩)]⟩

def courseB : Course :=
  ⟨"COMP102", "Data Structures", "CS", "2025-26", "UG", "Sem1",
    [("1B", ⟨"1B", "1B", "1002", "Dr. B", [slotB]⟩)]⟩

def catAB : Catalog := ⟨[("COMP101", courseA), ("COMP102", courseB)], [], [], []⟩

def storedA : List StoredItem := [⟨"COMP101", "1A", "Intro to CS", "Sem1"⟩]

/-- One course whose single subclass has two Monday-overlapping slots. -/
def slotX1 : TimeSlot := ⟨["MON"], "09:00:00", "10:00:00", "R1", "I1"⟩

def slotX2 : TimeSlot := ⟨["MON", "WED"], "09:30:00", "10:30:00", "R2", "I1"⟩

def courseX : Course :=
  ⟨"COMP103", "Algorithms", "CS", "2025-26", "UG", "Sem1",
    [("1C", ⟨"1C", "1C", "1003", "I1", [slotX1, slotX2]⟩)]⟩

def catX : Catalog := ⟨[("COMP103", courseX)], [], [], []⟩

/-- One course whose subclass has a zero-duration slot and a second slot
starting at the same instant: conflict-free, but exporting collides UIDs. -/
def slotZ1 : TimeSlot := ⟨["MON"], "09:00:00", "09:00:00", "R", "I"⟩

def slotZ2 : TimeSlot := ⟨["MON", "WED"], "09:00:00", "10:00:00", "R", "I"⟩

def courseZ : Course :=
  ⟨"COMP104", "Operating Systems", "CS", "2025-26", "UG", "Sem1",
    [("1D", ⟨"1D", "1D", "1004", "I", [slotZ1, slotZ2]⟩)]⟩

def catZ : Catalog := ⟨[("COMP104", courseZ)], [], [], []⟩

def schedZ : List ScheduleItem := [⟨"COMP104", "1D"⟩]

/-- A slot with unparsable time strings. -/
def slotTBA : TimeSlot := ⟨["MON"], "TBA", "TBA", "", ""⟩

/-- A conflict-free two-course schedule (touching slots only). -/
def slotV : TimeSlot := ⟨["MON"], "10:00:00", "11:00:00", "Room C", "Dr. C"⟩

def courseV : Course :=
  ⟨"COMP105", "Networks", "CS", "2025-26", "UG", "Sem1",
    [("1E", ⟨"1E", "1E", "1005", "Dr. C", [slotV]⟩)]⟩

def catV : Catalog := ⟨[("COMP101", courseA), ("COMP105", courseV)], [], [], []⟩

def schedV : List ScheduleItem := [⟨"COMP101", "1A"⟩, ⟨"COMP105", "1E"⟩]

/-- Two input rows of one course code, in different semesters, with different
title cells. -/
def rowR1 : Row :=
  { course_code := some "COMP101", class_section := some "1A", class_number := some "1001",
    start_time := some "09:00:00", end_time := some "10:00:00", venue := some "R1",
    instructor := some "I1", course_title := some "Intro to CS", offer_dept := some "CS",
    term := some "T1", acad_career := some "UG",
    mon := true, tue := false, wed := false, thu := false, fri := false, sat := false,
    sun := false }

def rowR2 : Row :=
  { course_code := some "COMP101", class_section := some "2A", class_number := some "2001",
    start_time := some "11:00:00", end_time := some "12:00:00", venue := some "R2",
    instructor := some "I2", course_title := some "A Different Title",
    offer_dept := some "Maths", term := some "T2", acad_career := some "UG",
    mon := false, tue := true, wed := false, thu := false, fri := false, sat := false,
    sun := false }

/-- Entries of two class numbers whose first entries share the section
string `"1A"`. -/
def entE1 : Entry := ⟨"1A", ["MON"], "09:00:00", "10:00:00", "R1", "I1", "1001"⟩

def entE2 : Entry := ⟨"1A", ["WED"], "11:00:00", "12:00:00", "R2", "I2", "1002"⟩

/-- Entries with a repeated day-set (`["MON"]` twice) and a distinct one. -/
def entF1 : Entry := ⟨"1A", ["MON"], "09:00:00", "10:00:00", "R1", "I1", "1001"⟩

def entF2 : Entry := ⟨"1A", ["MON"], "14:00:00", "15:00:00", "R9", "I9", "1001"⟩

def entF3 : Entry := ⟨"1A", ["WED"], "09:00:00", "10:00:00", "R1", "I1", "1001"⟩

def schedAB : List ScheduleItem := [⟨"COMP101", "1A"⟩, ⟨"COMP102", "1B"⟩]

/-- The subclass `process_courses` builds from `[entF1, entF2, entF3]`. -/
def subF : Subclass := ⟨"1A", "1A", "1001", "I1", [entryToSlot entF1, entryToSlot entF3]⟩

/-- The subclass built from `entE2`'s group. -/
def subE2 : Subclass := ⟨"1A", "1A", "1002", "I2", [entryToSlot entE2]⟩

theorem conflictPairs_eq_filterMap (l : List IntervalRec) :
    conflictPairs l = (pairList l).filterMap
      (fun p => if conflictCond p.1 p.2 then some (p.1.course, p.2.course) else none) := by
  induction l with
  | nil => rfl
  | cons x l ih =>
    simp only [conflictPairs, pairList, List.filterMap_append, ih, List.filterMap_map]
    rfl

/-- A digit character is not a colon. -/
theorem isDigit_ne_colon {c : Char} (h : c.isDigit = true) : ¬ c = ':' := by
  intro hc; subst hc; simp [Char.isDigit] at h

/-- On a well-formed `"HH:MM:SS"` string the parser succeeds, with the value
`hmsVal` (the obvious seconds-since-midnight reading of the six digits). -/
theorem strptimeHMS_of_wellFormed {s : String} (h : wellFormedHMS s = true) :
    strptimeHMS s = some (hmsVal s) := by
  suffices hs : (strptimeHMS s).isSome = true by
    rw [Option.isSome_iff_exists] at hs
    obtain ⟨v, hv⟩ := hs
    simp [hmsVal, hv]
  unfold wellFormedHMS at h
  rcases hs : s.data with _ | ⟨h1, _ | ⟨h2, _ | ⟨c1, _ | ⟨m1, _ | ⟨m2, _ | ⟨c2, _ | ⟨s1, _ | ⟨s2, _ | ⟨c9, rest⟩⟩⟩⟩⟩⟩⟩⟩⟩ <;>
      rw [hs] at h
  · exact Bool.noConfusion h
  · exact Bool.noConfusion h
  · exact Bool.noConfusion h
  · exact Bool.noConfusion h
  · exact Bool.noConfusion h
  · exact Bool.noConfusion h
  · exact Bool.noConfusion h
  · exact Bool.noConfusion h
  on_goal 2 => exact Bool.noConfusion h
  replace h : ((c1 == ':') && (c2 == ':')
      && h1.isDigit && h2.isDigit && m1.isDigit && m2.isDigit && s1.isDigit && s2.isDigit
      && decide (digitVal h1 * 10 + digitVal h2 < 24)
      && decide (digitVal m1 * 10 + digitVal m2 < 60)
      && decide (digitVal s1 * 10 + digitVal s2 < 60)) = true := h
  simp only [Bool.and_eq_true, beq_iff_eq, decide_eq_true_eq] at h
  obtain ⟨⟨⟨⟨⟨⟨⟨⟨⟨⟨hc1, hc2⟩, hd1⟩, hd2⟩, hd3⟩, hd4⟩, hd5⟩, hd6⟩, hb1⟩, hb2⟩, hb3⟩ := h
  subst hc1; subst hc2
  have e1 : splitColon [h1, h2, ':', m1, m2, ':', s1, s2] =
      [[h1, h2], [m1, m2], [s1, s2]] := by
    simp [splitColon, isDigit_ne_colon hd1, isDigit_ne_colon hd2,
      isDigit_ne_colon hd3, isDigit_ne_colon hd4,
      isDigit_ne_colon hd5, isDigit_ne_colon hd6]
  unfold strptimeHMS
  rw [hs, e1]
  simp [fieldVal, hd1, hd2, hd3, hd4, hd5, hd6,
    show digitVal h1 * 10 + digitVal h2 ≤ 23 by omega,
    show digitVal m1 * 10 + digitVal m2 ≤ 59 by omega,
    show digitVal s1 * 10 + digitVal s2 ≤ 61 by omega,
    show ¬ 60 ≤ digitVal s1 * 10 + digitVal s2 by omega]

/-- A digit character's value is at most 9. -/
theorem digitVal_le_of_isDigit {c : Char} (h : c.isDigit = true) : digitVal c ≤ 9 := by
  have hle : c.toNat ≤ 57 := by
    unfold Char.isDigit at h
    simp only [Bool.and_eq_true, decide_eq_true_eq] at h
    exact h.2
  unfold digitVal
  omega

/-- A parsed `strptime` field is bounded by `maxTwo` (when `9 ≤ maxTwo`). -/
theorem fieldVal_le {m : Nat} {cs : List Char} {v : Nat} (h9 : 9 ≤ m)
    (h : fieldVal m cs = some v) : v ≤ m := by
  rcases cs with _ | ⟨c, _ | ⟨c2, t⟩⟩
  · exact Option.noConfusion h
  · replace h : (if c.isDigit = true then some (digitVal c) else none) = some v := h
    split at h
    · have hd : c.isDigit = true := by assumption
      have hv := Option.some.inj h
      have := digitVal_le_of_isDigit hd
      omega
    · exact Option.noConfusion h
  · rcases t with _ | ⟨c3, t'⟩
    · replace h : (if (c.isDigit && c2.isDigit) = true then
          (if digitVal c * 10 + digitVal c2 ≤ m then
            some (digitVal c * 10 + digitVal c2) else none)
          else none) = some v := h
      split at h
      · split at h
        · have := Option.some.inj h; omega
        · exact Option.noConfusion h
      · exact Option.noConfusion h
    · exact Option.noConfusion h

/-- A well-formed time string denotes fewer than 86400 seconds. -/
theorem hmsVal_lt_of_wellFormed {s : String} (h : wellFormedHMS s = true) :
    hmsVal s < 86400 := by
  have hp := strptimeHMS_of_wellFormed h
  unfold strptimeHMS at hp
  rcases h1 : splitColon s.data with _ | ⟨hf, _ | ⟨mf, _ | ⟨sf, _ | ⟨x, rest⟩⟩⟩⟩ <;>
      rw [h1] at hp <;> try exact Option.noConfusion hp
  replace hp : (match fieldVal 23 hf, fieldVal 59 mf, fieldVal 61 sf with
    | some h, some m, some sec => if 60 ≤ sec then none else some (h * 3600 + m * 60 + sec)
    | _, _, _ => none) = some (hmsVal s) := hp
  rcases h2 : fieldVal 23 hf with _ | hv <;> rw [h2] at hp <;>
    [skip; rcases h3 : fieldVal 59 mf with _ | mv] <;> try rw [h3] at hp
  · exact Option.noConfusion hp
  · exact Option.noConfusion hp
  rcases h4 : fieldVal 61 sf with _ | sv <;> rw [h4] at hp
  · exact Option.noConfusion hp
  have hhv : hv ≤ 23 := fieldVal_le (by omega) h2
  have hmv : mv ≤ 59 := fieldVal_le (by omega) h3
  replace hp : (if 60 ≤ sv then none else some (hv * 3600 + mv * 60 + sv)) = some (hmsVal s) := hp
  by_cases hsv : 60 ≤ sv
  · rw [if_pos hsv] at hp; exact Option.noConfusion hp
  · rw [if_neg hsv] at hp
    have : hv * 3600 + mv * 60 + sv = hmsVal s := Option.some.inj hp
    omega

/-- Under well-formedness, `_time_overlap` is the strict-overlap test on the
parsed second counts. -/
theorem _time_overlap_iff {s1 e1 s2 e2 : String}
    (h1 : wellFormedHMS s1 = true) (h2 : wellFormedHMS e1 = true)
    (h3 : wellFormedHMS s2 = true) (h4 : wellFormedHMS e2 = true) :
    _time_overlap s1 e1 s2 e2 = true ↔
      ¬ (hmsVal e1 ≤ hmsVal s2 ∨ hmsVal e2 ≤ hmsVal s1) := by
  unfold _time_overlap
  rw [strptimeHMS_of_wellFormed h1, strptimeHMS_of_wellFormed h2,
    strptimeHMS_of_wellFormed h3, strptimeHMS_of_wellFormed h4]
  simp [not_or]

/-- Guarded `filterMap` is `filter` followed by `map`. -/
theorem filterMap_guard_eq {α β : Type} (c : α → Bool) (f : α → β) (l : List α) :
    l.filterMap (fun a => if c a then some (f a) else none) = (l.filter c).map f := by
  induction l with
  | nil => rfl
  | cons a l ih => by_cases h : c a <;> simp [h, ih]

/-- Claim C1: on any expansion, the conflict loop reports exactly the pairs
(in visiting order, `i < j`) whose test passes; for a pair of records with
well-formed `"HH:MM:SS"` times that test holds iff the two records share a
day and their ranges strictly overlap
(`not (end1 <= start2 or end2 <= start1)` on the parsed times); in
particular, touching slots (`end1 = start2`) on the same day are never
reported. -/
theorem C1_conflict_iff_same_day_strict_overlap :
    (∀ l : List IntervalRec,
      conflictPairs l = (pairList l).filterMap
        (fun p => if conflictCond p.1 p.2 then some (p.1.course, p.2.course) else none))
    ∧ (∀ r1 r2 : IntervalRec,
      wellFormedHMS r1.start = true → wellFormedHMS r1.endT = true →
      wellFormedHMS r2.start = true → wellFormedHMS r2.endT = true →
      (conflictCond r1 r2 = true ↔
        (r1.day = r2.day ∧
          ¬ (hmsVal r1.endT ≤ hmsVal r2.start ∨ hmsVal r2.endT ≤ hmsVal r1.start))))
    ∧ (∀ r1 r2 : IntervalRec,
      wellFormedHMS r1.start = true → wellFormedHMS r1.endT = true →
      wellFormedHMS r2.start = true → wellFormedHMS r2.endT = true →
      r1.day = r2.day → hmsVal r1.endT = hmsVal r2.start →
      conflictCond r1 r2 = false) := by
  refine ⟨conflictPairs_eq_filterMap, ?_, ?_⟩
  · intro r1 r2 h1 h2 h3 h4
    unfold conflictCond
    rw [Bool.and_eq_true, beq_iff_eq, _time_overlap_iff h1 h2 h3 h4]
  · intro r1 r2 h1 h2 h3 h4 hday heq
    unfold conflictCond
    rw [Bool.and_eq_false_iff]
    right
    rw [← Bool.not_eq_true, _time_overlap_iff h1 h2 h3 h4]
    intro hcon
    exact hcon (Or.inl (le_of_eq heq))

/-- Witness for C1 at a concrete touching pair: `end1 = start2` gives a
failing test. -/
theorem C1_conflict_iff_same_day_strict_overlap_witness :
    conflictCond ⟨"MON", "09:00:00", "10:00:00", "COMP101 (1A)"⟩
      ⟨"MON", "10:00:00", "11:00:00", "COMP102 (1B)"⟩ = false :=
  C1_conflict_iff_same_day_strict_overlap.2.2
    ⟨"MON", "09:00:00", "10:00:00", "COMP101 (1A)"⟩
    ⟨"MON", "10:00:00", "11:00:00", "COMP102 (1B)"⟩
    (by decide) (by decide) (by decide) (by decide) rfl (by decide)

/-- Claim C2 fails as stated: both slots of `catHM` carry spec-valid
`"HH:MM"` time strings whose ranges strictly overlap
(09:00–10:00 vs 09:30–10:30 on MON), yet the conflict check — which parses
with `'%H:%M:%S'` only — reports no conflict at all instead of exactly
one pair. -/
theorem C2_counterexample :
    get_time_conflict catHM schedHM "Sem1" = []
      ∧ strptimeHM slotHM1.start_time = some 32400
      ∧ strptimeHM slotHM1.end_time = some 36000
      ∧ strptimeHM slotHM2.start_time = some 34200
      ∧ strptimeHM slotHM2.end_time = some 37800
      ∧ 32400 < 37800 ∧ 34200 < 36000 := by
  refine ⟨by decide, by decide, by decide, by decide, by decide, by decide, by decide⟩

/-- Claim C2 amended: restricted to well-formed `"HH:MM:SS"` times.  The
conflict count equals the number of passing pairs (each unordered pair is
visited once), and a two-record expansion with same-day strictly-overlapping
well-formed times yields exactly the one conflict pair. -/
theorem C2_overlap_reported_exactly_once :
    (∀ l : List IntervalRec,
      (conflictPairs l).length =
        ((pairList l).filter (fun p => conflictCond p.1 p.2)).length)
    ∧ (∀ (cat : Catalog) (schedule : List ScheduleItem) (semester : String)
        (r1 r2 : IntervalRec),
      expandSlots cat schedule semester = [r1, r2] →
      wellFormedHMS r1.start = true → wellFormedHMS r1.endT = true →
      wellFormedHMS r2.start = true → wellFormedHMS r2.endT = true →
      r1.day = r2.day →
      hmsVal r1.start < hmsVal r2.endT → hmsVal r2.start < hmsVal r1.endT →
      get_time_conflict cat schedule semester = [(r1.course, r2.course)]) := by
  constructor
  · intro l
    rw [conflictPairs_eq_filterMap, filterMap_guard_eq, List.length_map]
  · intro cat schedule semester r1 r2 hexp h1 h2 h3 h4 hday hlt1 hlt2
    unfold get_time_conflict
    rw [hexp]
    have hcond : conflictCond r1 r2 = true := by
      unfold conflictCond
      rw [Bool.and_eq_true, beq_iff_eq, _time_overlap_iff h1 h2 h3 h4]
      exact ⟨hday, by omega⟩
    simp [conflictPairs, hcond]

/-- Witness for the amended C2 on a concrete two-course schedule with
`"HH:MM:SS"` times. -/
theorem C2_overlap_reported_exactly_once_witness :
    get_time_conflict catAB schedAB "Sem1" = [("COMP101 (1A)", "COMP102 (1B)")] :=
  C2_overlap_reported_exactly_once.2 catAB schedAB "Sem1"
    ⟨"MON", "09:00:00", "10:00:00", "COMP101 (1A)"⟩
    ⟨"MON", "09:30:00", "10:30:00", "COMP102 (1B)"⟩
    (by decide) (by decide) (by decide) (by decide) (by decide) rfl
    (by decide) (by decide)

theorem mem_pairList_append {α : Type} {a b : α} {xs ys : List α}
    (ha : a ∈ xs) (hb : b ∈ ys) : (a, b) ∈ pairList (xs ++ ys) := by
  induction xs with
  | nil => cases ha
  | cons x xs ih =>
    rcases List.mem_cons.mp ha with rfl | ha'
    · show (a, b) ∈ pairList (a :: (xs ++ ys))
      unfold pairList
      exact List.mem_append_left _ (List.mem_map.mpr ⟨b, List.mem_append_right _ hb, rfl⟩)
    · show (a, b) ∈ pairList (x :: (xs ++ ys))
      unfold pairList
      exact List.mem_append_right _ (ih ha')

theorem mem_of_mem_pairList {α : Type} {p : α × α} {l : List α}
    (h : p ∈ pairList l) : p.1 ∈ l ∧ p.2 ∈ l := by
  induction l with
  | nil => cases h
  | cons x xs ih =>
    unfold pairList at h
    rcases List.mem_append.mp h with h' | h'
    · obtain ⟨y, hy, rfl⟩ := List.mem_map.mp h'
      exact ⟨List.mem_cons_self _ _, List.mem_cons_of_mem _ hy⟩
    · obtain ⟨h1, h2⟩ := ih h'
      exact ⟨List.mem_cons_of_mem _ h1, List.mem_cons_of_mem _ h2⟩

theorem conflictPairs_mem {a b : IntervalRec} {l : List IntervalRec}
    (hmem : (a, b) ∈ pairList l) (hcond : conflictCond a b = true) :
    (a.course, b.course) ∈ conflictPairs l := by
  rw [conflictPairs_eq_filterMap]
  exact List.mem_filterMap.mpr ⟨(a, b), hmem, by simp [hcond]⟩

theorem mem_conflictPairs_inv {q : String × String} {l : List IntervalRec}
    (h : q ∈ conflictPairs l) :
    ∃ p, p ∈ pairList l ∧ conflictCond p.1 p.2 = true ∧ q = (p.1.course, p.2.course) := by
  rw [conflictPairs_eq_filterMap] at h
  obtain ⟨p, hp, hf⟩ := List.mem_filterMap.mp h
  by_cases hc : conflictCond p.1 p.2
  · refine ⟨p, hp, hc, ?_⟩
    rw [if_pos hc] at hf
    exact (Option.some.inj hf).symm
  · rw [if_neg hc] at hf
    exact Option.noConfusion hf

theorem expandSlots_append (cat : Catalog) (s1 s2 : List ScheduleItem) (semester : String) :
    expandSlots cat (s1 ++ s2) semester =
      expandSlots cat s1 semester ++ expandSlots cat s2 semester :=
  List.flatMap_append ..

theorem expandSlots_singleton {cat : Catalog} {item : ScheduleItem} {semester : String}
    {course : Course} {sc : Subclass}
    (hc : get_course_by_code_and_semester cat item.course_code semester = some course)
    (hs : course.subclasses.lookup item.subclass = some sc) :
    expandSlots cat [item] semester =
      sc.time_slots.flatMap (fun ts => ts.days.map (slotRec item.course_code item.subclass ts)) := by
  unfold expandSlots
  simp [hc, hs]

theorem slotRec_mem {code label : String} {slots : List TimeSlot} {ts : TimeSlot} {d : String}
    (hts : ts ∈ slots) (hd : d ∈ ts.days) :
    slotRec code label ts d ∈ slots.flatMap (fun ts => ts.days.map (slotRec code label ts)) :=
  List.mem_flatMap.mpr ⟨ts, hts, List.mem_map.mpr ⟨d, hd, rfl⟩⟩

theorem course_of_mem_expandSingleton {cat : Catalog} {item : ScheduleItem} {semester : String}
    {r : IntervalRec} (hr : r ∈ expandSlots cat [item] semester) :
    r.course = item.course_code ++ " (" ++ item.subclass ++ ")" := by
  have hr' : r ∈ (match get_course_by_code_and_semester cat item.course_code semester with
    | some course =>
      match course.subclasses.lookup item.subclass with
      | some sc =>
        sc.time_slots.flatMap (fun ts => ts.days.map (slotRec item.course_code item.subclass ts))
      | none => ([] : List IntervalRec)
    | none => []) := by simpa [expandSlots] using hr
  rcases hcc : get_course_by_code_and_semester cat item.course_code semester with _ | course <;>
    rw [hcc] at hr'
  · cases hr'
  replace hr' : r ∈ (match course.subclasses.lookup item.subclass with
    | some sc =>
      sc.time_slots.flatMap (fun ts => ts.days.map (slotRec item.course_code item.subclass ts))
    | none => ([] : List IntervalRec)) := hr'
  rcases hsc : course.subclasses.lookup item.subclass with _ | sc <;> rw [hsc] at hr'
  · cases hr'
  obtain ⟨ts, hts, hmap⟩ := List.mem_flatMap.mp hr'
  obtain ⟨d, hd, rfl⟩ := List.mem_map.mp hmap
  rfl

theorem mem_of_mem_keepFirstsBy {α β : Type} [DecidableEq β] (key : α → β) :
    ∀ (l : List α) (a : α), a ∈ keepFirstsBy key l → a ∈ l
  | [], a, h => absurd h (by rw [keepFirstsBy]; simp)
  | b :: l, a, h => by
    rw [keepFirstsBy] at h
    rcases List.mem_cons.mp h with rfl | h'
    · exact List.mem_cons_self _ _
    · exact List.mem_cons_of_mem _
        (List.mem_filter.mp (mem_of_mem_keepFirstsBy key _ a h')).1
termination_by l => l.length
decreasing_by simp only [List.length_cons]; exact Nat.lt_succ_of_le (List.length_filter_le _ _)

theorem keepFirstsBy_keys_nodup {α β : Type} [DecidableEq β] (key : α → β) :
    ∀ l : List α, ((keepFirstsBy key l).map key).Nodup
  | [] => by rw [keepFirstsBy]; simp
  | b :: l => by
    rw [keepFirstsBy]
    simp only [List.map_cons, List.nodup_cons]
    refine ⟨?_, keepFirstsBy_keys_nodup key _⟩
    intro hmem
    obtain ⟨a, ha, hkey⟩ := List.mem_map.mp hmem
    have := (List.mem_filter.mp (mem_of_mem_keepFirstsBy key _ a ha)).2
    simp only [decide_eq_true_eq] at this
    exact this hkey
termination_by l => l.length
decreasing_by simp only [List.length_cons]; exact Nat.lt_succ_of_le (List.length_filter_le _ _)

theorem keepFirstsBy_keys_cover {α β : Type} [DecidableEq β] (key : α → β) :
    ∀ (l : List α) (a : α), a ∈ l → key a ∈ (keepFirstsBy key l).map key
  | [], a, h => absurd h (by simp)
  | b :: l, a, h => by
    rw [keepFirstsBy]
    simp only [List.map_cons, List.mem_cons]
    rcases List.mem_cons.mp h with rfl | h'
    · exact Or.inl rfl
    · by_cases hk : key a = key b
      · exact Or.inl hk
      · exact Or.inr (keepFirstsBy_keys_cover key _ a
          (List.mem_filter.mpr ⟨h', by simpa using hk⟩))
termination_by l => l.length
decreasing_by simp only [List.length_cons]; exact Nat.lt_succ_of_le (List.length_filter_le _ _)

theorem mem_of_mem_firstDedupAux {α : Type} [DecidableEq α] {a : α} :
    ∀ {l : List α} (seen : List α), a ∈ firstDedupAux seen l → a ∈ l := by
  intro l
  induction l with
  | nil => intro seen h; cases h
  | cons b l ih =>
    intro seen h
    rw [firstDedupAux] at h
    split at h
    · exact List.mem_cons_of_mem _ (ih seen h)
    · rcases List.mem_cons.mp h with rfl | h'
      · exact List.mem_cons_self _ _
      · exact List.mem_cons_of_mem _ (ih _ h')

theorem firstDedupAux_nodup {α : Type} [DecidableEq α] :
    ∀ (l seen : List α), (firstDedupAux seen l).Nodup
      ∧ ∀ a ∈ firstDedupAux seen l, a ∉ seen := by
  intro l
  induction l with
  | nil => intro seen; simp [firstDedupAux]
  | cons b l ih =>
    intro seen
    rw [firstDedupAux]
    split
    · exact ih seen
    · obtain ⟨hnd, hnin⟩ := ih (b :: seen)
      have hbnotin : b ∉ seen := by assumption
      refine ⟨List.nodup_cons.mpr ⟨?_, hnd⟩, ?_⟩
      · intro hb
        exact (hnin b hb) (List.mem_cons_self _ _)
      · intro a ha
        rcases List.mem_cons.mp ha with rfl | ha'
        · exact hbnotin
        · exact fun hc => (hnin a ha') (List.mem_cons_of_mem _ hc)

theorem mem_of_mem_firstDedup {α : Type} [DecidableEq α] {l : List α} {a : α}
    (h : a ∈ firstDedup l) : a ∈ l :=
  mem_of_mem_firstDedupAux [] h

theorem firstDedup_nodup {α : Type} [DecidableEq α] (l : List α) : (firstDedup l).Nodup :=
  (firstDedupAux_nodup l []).1

/-- The time-slot loop, started with `seen`/`slots`, appends one slot per
first occurrence of a day-set key not yet seen. -/
theorem slotsLoop_eq (entries : List Entry) : ∀ (seen : List (List String))
    (slots : List TimeSlot),
    slotsLoop seen slots entries =
      slots ++ (keepFirstsBy (fun e => daysKey e.days)
        (entries.filter (fun e => daysKey e.days ∉ seen))).map entryToSlot := by
  induction entries with
  | nil => intro seen slots; simp [slotsLoop, keepFirstsBy]
  | cons e rest ih =>
    intro seen slots
    by_cases h : daysKey e.days ∈ seen
    · rw [slotsLoop, if_pos h, ih, List.filter_cons, if_neg (by simpa using h)]
    · rw [slotsLoop, if_neg h, ih, List.filter_cons, if_pos (by simpa using h), keepFirstsBy]
      have hff : (rest.filter (fun b => daysKey b.days ∉ (daysKey e.days :: seen))) =
          ((rest.filter (fun b => daysKey b.days ∉ seen)).filter
            (fun b => daysKey b.days ≠ daysKey e.days)) := by
        rw [List.filter_filter]
        apply List.filter_congr
        intro b _
        have hiff : (daysKey b.days ∉ daysKey e.days :: seen) ↔
            (daysKey b.days ≠ daysKey e.days ∧ daysKey b.days ∉ seen) := by
          simp [not_or]
        rw [decide_eq_decide.mpr hiff, Bool.decide_and]
      rw [hff]
      simp

theorem mem_dictInsert {β : Type} {m : List (String × β)} {k : String} {v : β}
    {p : String × β} (hp : p ∈ dictInsert m k v) : p ∈ m ∨ p = (k, v) := by
  unfold dictInsert at hp
  split at hp
  · obtain ⟨q, hq, hpq⟩ := List.mem_map.mp hp
    by_cases h : q.1 == k
    · rw [if_pos h] at hpq
      right; exact hpq.symm
    · rw [if_neg h] at hpq
      left; exact hpq ▸ hq
  · rcases List.mem_append.mp hp with h | h
    · left; exact h
    · right; simpa using h

/-- Every binding of `subclassesOf entries` holds the subclass built from
some class-number group of `entries`. -/
theorem mem_subclassesOf {entries : List Entry} {p : String × Subclass}
    (hp : p ∈ subclassesOf entries) :
    ∃ cn, mkSubclass cn (entries.filter (fun e => e.class_number == cn)) = some p.2 := by
  unfold subclassesOf at hp
  suffices H : ∀ (cns : List String) (acc : List (String × Subclass)),
      (∀ q ∈ acc, ∃ cn,
        mkSubclass cn (entries.filter (fun e => e.class_number == cn)) = some q.2) →
      ∀ q ∈ cns.foldl (fun acc cn =>
          match mkSubclass cn (entries.filter (fun e => e.class_number == cn)) with
          | some sc => dictInsert acc sc.label sc
          | none => acc) acc,
        ∃ cn, mkSubclass cn (entries.filter (fun e => e.class_number == cn)) = some q.2 by
    exact H _ [] (by simp) p hp
  intro cns
  induction cns with
  | nil => intro acc hacc q hq; exact hacc q hq
  | cons c cns ih =>
    intro acc hacc q hq
    simp only [List.foldl_cons] at hq
    refine ih _ ?_ q hq
    intro q' hq'
    rcases hmk : mkSubclass c (entries.filter (fun e => e.class_number == c)) with _ | sc <;>
      rw [hmk] at hq'
    · exact hacc q' hq'
    · rcases mem_dictInsert hq' with h | h
      · exact hacc q' h
      · exact ⟨c, by rw [hmk, h]⟩

/-- Claim C3 fails as stated when the requested course is already in the
schedule: the request's subclass exists in the catalog and its slots overlap
an existing selection's slots (here: itself), yet the request is rejected
with the duplicate-course error, not with TimeConflict. -/
theorem C3_counterexample :
    api_schedule_post catAB storedA "COMP101" "1A" "Sem1" = (.alreadyInSchedule, storedA)
      ∧ get_time_conflict catAB (storedA.map toScheduleItem ++ [⟨"COMP101", "1A"⟩]) "Sem1" ≠ [] :=
  ⟨by decide, by decide⟩

/-- Claim C3 amended: provided additionally that the course is not already in
the schedule (the duplicate check precedes the conflict check), a request
whose subclass exists and whose expanded slots overlap an existing
selection's expanded slots is rejected with TimeConflict carrying the
(nonempty) conflict-pair list, and the stored schedule is unchanged. -/
theorem C3_timeconflict_rejected (cat : Catalog) (stored : List StoredItem)
    (course_code subclass semester : String) (course : Course) (sc : Subclass)
    (r1 r2 : IntervalRec)
    (hcc : course_code ≠ "") (hsc : subclass ≠ "")
    (hcourse : get_course_by_code_and_semester cat course_code semester = some course)
    (hsub : course.subclasses.lookup subclass = some sc)
    (hdup : stored.any (fun it => it.course_code == course_code) = false)
    (hr1 : r1 ∈ expandSlots cat (stored.map toScheduleItem) semester)
    (hr2 : r2 ∈ expandSlots cat [⟨course_code, subclass⟩] semester)
    (hday : r1.day = r2.day)
    (hov : _time_overlap r1.start r1.endT r2.start r2.endT = true) :
    api_schedule_post cat stored course_code subclass semester =
      (.timeConflict (get_time_conflict cat
          (stored.map toScheduleItem ++ [⟨course_code, subclass⟩]) semester), stored)
      ∧ get_time_conflict cat
          (stored.map toScheduleItem ++ [⟨course_code, subclass⟩]) semester ≠ [] := by
  have hconf : (r1.course, r2.course) ∈ get_time_conflict cat
      (stored.map toScheduleItem ++ [⟨course_code, subclass⟩]) semester := by
    unfold get_time_conflict
    apply conflictPairs_mem
    · rw [expandSlots_append]
      exact mem_pairList_append hr1 hr2
    · unfold conflictCond
      rw [Bool.and_eq_true, beq_iff_eq]
      exact ⟨hday, hov⟩
  have hne : get_time_conflict cat
      (stored.map toScheduleItem ++ [⟨course_code, subclass⟩]) semester ≠ [] := by
    intro h
    rw [h] at hconf
    cases hconf
  refine ⟨?_, hne⟩
  unfold api_schedule_post
  rw [if_neg (by push_neg; exact ⟨hcc, hsc⟩), hcourse]
  simp only [hsub, Option.isNone_some, Bool.false_eq_true, if_false, hdup,
    List.isEmpty_eq_false.mpr hne]

/-- Witness for the amended C3: adding the overlapping `COMP102 (1B)` to a
schedule already holding `COMP101 (1A)` is rejected with the conflict list
and leaves the schedule unchanged. -/
theorem C3_timeconflict_rejected_witness :
    api_schedule_post catAB storedA "COMP102" "1B" "Sem1" =
      (.timeConflict (get_time_conflict catAB
          (storedA.map toScheduleItem ++ [⟨"COMP102", "1B"⟩]) "Sem1"), storedA) :=
  (C3_timeconflict_rejected catAB storedA "COMP102" "1B" "Sem1" courseB
    ⟨"1B", "1B", "1002", "Dr. B", [slotB]⟩
    ⟨"MON", "09:00:00", "10:00:00", "COMP101 (1A)"⟩
    ⟨"MON", "09:30:00", "10:30:00", "COMP102 (1B)"⟩
    (by decide) (by decide) (by decide) (by decide) (by decide)
    (by decide) (by decide) rfl (by decide)).1

theorem lookup_map_replace {β : Type} {m : List (String × β)} {k c : String} {v : β}
    (h : c ≠ k) :
    (m.map (fun p => if p.1 == k then (k, v) else p)).lookup c = m.lookup c := by
  induction m with
  | nil => rfl
  | cons p m ih =>
    rcases p with ⟨p1, p2⟩
    simp only [List.map_cons]
    by_cases hp : (p1 == k) = true
    · rw [if_pos hp]
      have hk : p1 = k := by simpa using hp
      have h1 : (c == k) = false := beq_false_of_ne h
      have h2 : (c == p1) = false := beq_false_of_ne (by rw [hk]; exact h)
      simp only [List.lookup, h1, h2]
      exact ih
    · rw [if_neg hp]
      by_cases hc : (c == p1) = true
      · simp [List.lookup, hc]
      · simp only [Bool.not_eq_true] at hc
        simp only [List.lookup, hc]
        exact ih

theorem lookup_append_ne {β : Type} {m : List (String × β)} {k c : String} {v : β}
    (h : c ≠ k) : (m ++ [(k, v)]).lookup c = m.lookup c := by
  induction m with
  | nil => simp [List.lookup, beq_false_of_ne h]
  | cons p m ih =>
    rcases p with ⟨p1, p2⟩
    by_cases hc : (c == p1) = true
    · simp [List.lookup, hc]
    · simp only [Bool.not_eq_true] at hc
      simp [List.lookup, hc, ih]

theorem dictInsert_lookup_ne {β : Type} {m : List (String × β)} {k c : String} {v : β}
    (h : c ≠ k) : (dictInsert m k v).lookup c = m.lookup c := by
  unfold dictInsert
  split
  · exact lookup_map_replace h
  · exact lookup_append_ne h

theorem lookup_map_replace_self {β : Type} {k : String} {v : β} :
    ∀ {m : List (String × β)}, m.any (fun p => p.1 == k) = true →
    (m.map (fun p => if p.1 == k then (k, v) else p)).lookup k = some v := by
  intro m
  induction m with
  | nil => intro hany; cases hany
  | cons p m ih =>
    intro hany
    rcases p with ⟨p1, p2⟩
    simp only [List.map_cons]
    by_cases hp : (p1 == k) = true
    · rw [if_pos hp]
      simp [List.lookup]
    · rw [if_neg hp]
      have hk : (k == p1) = false := by
        have h1 : ¬ p1 = k := by simpa using hp
        exact beq_false_of_ne (fun hh => h1 hh.symm)
      simp only [List.lookup, hk]
      apply ih
      simpa [List.any_cons, hp] using hany

theorem lookup_append_last_self {β : Type} {k : String} {v : β} :
    ∀ {m : List (String × β)}, m.any (fun p => p.1 == k) = false →
    (m ++ [(k, v)]).lookup k = some v := by
  intro m
  induction m with
  | nil => intro _; simp [List.lookup]
  | cons p m ih =>
    intro hany
    rcases p with ⟨p1, p2⟩
    have hp : (p1 == k) = false := by
      by_contra hc
      simp only [Bool.not_eq_false] at hc
      simp [List.any_cons, hc] at hany
    have hk : (k == p1) = false := by
      have h1 : ¬ p1 = k := by simpa using hp
      exact beq_false_of_ne (fun hh => h1 hh.symm)
    simp only [List.cons_append, List.lookup, hk]
    apply ih
    simpa [List.any_cons, hp] using hany

theorem dictInsert_lookup_self {β : Type} {m : List (String × β)} {k : String} {v : β} :
    (dictInsert m k v).lookup k = some v := by
  unfold dictInsert
  split
  · exact lookup_map_replace_self (by assumption)
  · rename_i hany
    exact lookup_append_last_self (Bool.eq_false_iff.mpr hany)

/-- Inserting under semester `sem` leaves every other semester's partition
unchanged (and unknown semesters are never stored). -/
theorem get_insert_ne_sem {cat : Catalog} {sem s code : String} {course : Course}
    (h : s ≠ sem) : (cat.insert sem code course).get s = cat.get s := by
  unfold Catalog.insert Catalog.get
  split_ifs <;> first | rfl | (exfalso; subst_vars; exact h rfl)

theorem lookup_get_insert_ne {cat : Catalog} {sem code s c : String} {course : Course}
    (h : c ≠ code) :
    ((cat.insert sem code course).get s).lookup c = (cat.get s).lookup c := by
  unfold Catalog.insert Catalog.get
  split_ifs <;> first | rfl | exact dictInsert_lookup_ne h

/-- A successful lookup after an insert returns either the inserted course or
a course already present. -/
theorem lookup_get_insert_cases {cat : Catalog} {sem code s : String} {course off : Course}
    (h : ((cat.insert sem code course).get s).lookup code = some off) :
    off = course ∨ (cat.get s).lookup code = some off := by
  unfold Catalog.insert Catalog.get at h
  unfold Catalog.get
  split_ifs at h ⊢ <;>
    first
      | (right; exact h)
      | (rw [dictInsert_lookup_self] at h; left; exact (Option.some.inj h).symm)

/-- Any course the per-course semester fold stores under `code` is a
`mkCourse` of one of the semester groups. -/
theorem semFold_lookup_shape (group : List Row) (info : Row) (code : String) :
    ∀ (sems : List String) (cat : Catalog) (s : String) (off : Course),
    (((sems.foldl (fun cat semester =>
        let entries := semGroupEntries group semester
        if entries.isEmpty then cat
        else cat.insert semester code (mkCourse code semester info entries)) cat).get s).lookup
          code = some off) →
    (∃ sem, off = mkCourse code sem info (semGroupEntries group sem))
      ∨ ((cat.get s).lookup code = some off) := by
  intro sems
  induction sems with
  | nil => intro cat s off h; right; exact h
  | cons sem sems ih =>
    intro cat s off h
    rw [List.foldl_cons] at h
    rcases ih _ s off h with hfound | hbase
    · left; exact hfound
    · by_cases he : (semGroupEntries group sem).isEmpty
      · rw [if_pos he] at hbase
        right; exact hbase
      · rw [if_neg he] at hbase
        rcases lookup_get_insert_cases hbase with rfl | hold
        · left; exact ⟨sem, rfl⟩
        · right; exact hold

/-- Any course `addCourse` stores under `code` is a `mkCourse` whose
descriptive fields come from the first row of the whole course group. -/
theorem addCourse_lookup_shape {valid : List Row} {cat : Catalog} {code s : String}
    {off : Course}
    (h : ((addCourse valid cat code).get s).lookup code = some off) :
    (∃ sem info, (courseGroup valid code).head? = some info
        ∧ off = mkCourse code sem info (semGroupEntries (courseGroup valid code) sem))
      ∨ ((cat.get s).lookup code = some off) := by
  replace h : ((match (courseGroup valid code).head? with
      | none => cat
      | some info =>
        (semKeys (courseGroup valid code)).foldl (fun cat semester =>
          let entries := semGroupEntries (courseGroup valid code) semester
          if entries.isEmpty then cat
          else cat.insert semester code (mkCourse code semester info entries)) cat).get
        s).lookup code = some off := h
  rcases hh : (courseGroup valid code).head? with _ | info <;> rw [hh] at h
  · right; exact h
  · rcases semFold_lookup_shape (courseGroup valid code) info code _ cat s off h with
      ⟨sem, rfl⟩ | hbase
    · left; exact ⟨sem, info, rfl, rfl⟩
    · right; exact hbase

/-- `addCourse` for `code` does not disturb lookups of other codes. -/
theorem addCourse_lookup_ne {valid : List Row} {cat : Catalog} {code s c : String}
    (h : c ≠ code) :
    ((addCourse valid cat code).get s).lookup c = (cat.get s).lookup c := by
  rw [show addCourse valid cat code = (match (courseGroup valid code).head? with
      | none => cat
      | some info =>
        (semKeys (courseGroup valid code)).foldl (fun cat semester =>
          let entries := semGroupEntries (courseGroup valid code) semester
          if entries.isEmpty then cat
          else cat.insert semester code (mkCourse code semester info entries)) cat) from rfl]
  rcases (courseGroup valid code).head? with _ | info
  · rfl
  · show (((semKeys (courseGroup valid code)).foldl (fun cat semester =>
        let entries := semGroupEntries (courseGroup valid code) semester
        if entries.isEmpty then cat
        else cat.insert semester code (mkCourse code semester info entries)) cat).get
          s).lookup c = (cat.get s).lookup c
    generalize semKeys (courseGroup valid code) = sems
    induction sems generalizing cat with
    | nil => rfl
    | cons sem sems ih =>
      rw [List.foldl_cons, ih]
      by_cases he : (semGroupEntries (courseGroup valid code) sem).isEmpty
      · rw [if_pos he]
      · rw [if_neg he]
        exact lookup_get_insert_ne h

/-- The whole builder fold: every stored course is a `mkCourse` of its own
course group. -/
theorem codesFold_lookup_shape (valid : List Row) :
    ∀ (codes : List String) (cat : Catalog) (c s : String) (off : Course),
    (((codes.foldl (addCourse valid) cat).get s).lookup c = some off) →
    (∃ sem info, (courseGroup valid c).head? = some info
        ∧ off = mkCourse c sem info (semGroupEntries (courseGroup valid c) sem))
      ∨ ((cat.get s).lookup c = some off) := by
  intro codes
  induction codes with
  | nil => intro cat c s off h; right; exact h
  | cons code codes ih =>
    intro cat c s off h
    rw [List.foldl_cons] at h
    rcases ih _ c s off h with hfound | hbase
    · left; exact hfound
    · by_cases hc : c = code
      · subst hc
        rcases addCourse_lookup_shape hbase with hfound | hold
        · left; exact hfound
        · right; exact hold
      · right
        rw [addCourse_lookup_ne hc] at hbase
        exact hbase

/-- The weekday-advancing loop lands on the first date on or after `s` whose
weekday is `t`. -/
theorem advanceLoop_spec (s t : Nat) (ht : t < 7) :
    weekday (advanceLoop 7 s t) = t
      ∧ s ≤ advanceLoop 7 s t
      ∧ ∀ b, s ≤ b → b < advanceLoop 7 s t → weekday b ≠ t := by
  simp only [advanceLoop, weekday]
  split_ifs <;>
    refine ⟨by omega, by omega, ?_⟩ <;> (intro b hb1 hb2; omega)

/-- A recognised day code maps below 7. -/
theorem day_mapping_lt {day : String} {t : Nat} (h : day_mapping day = some t) : t < 7 := by
  unfold day_mapping at h
  split_ifs at h <;> first
    | exact Option.noConfusion h
    | (have hv := Option.some.inj h; omega)

set_option maxRecDepth 4000 in
/-- December 20, re-read from its day number within any 400-year era. -/
theorem civilOfDoe_dec20 :
    ∀ v, v < 400 → civilOfDoe (v * 365 + v / 4 - v / 100 + 294) = (v, 12, 20) := by decide

/-- `strftime('%Y%m%d')` of Dec 20 of year `y`. -/
theorem fmtDate_sem1_end (y : Nat) :
    fmtDate (daysFromCivil y 12 20) = pad4 y ++ "1220" := by
  have hm : y % 400 < 400 := Nat.mod_lt _ (by norm_num)
  have hval : daysFromCivil y 12 20 =
      (y / 400) * 146097 + ((y % 400) * 365 + (y % 400) / 4 - (y % 400) / 100 + 294) := by
    unfold daysFromCivil
    norm_num
  rw [hval]
  unfold fmtDate civilFromDays
  have hdoe : (y % 400) * 365 + (y % 400) / 4 - (y % 400) / 100 + 294 < 146097 := by omega
  have hmod : ((y / 400) * 146097 +
      ((y % 400) * 365 + (y % 400) / 4 - (y % 400) / 100 + 294)) % 146097 =
      (y % 400) * 365 + (y % 400) / 4 - (y % 400) / 100 + 294 := by omega
  have hdiv : ((y / 400) * 146097 +
      ((y % 400) * 365 + (y % 400) / 4 - (y % 400) / 100 + 294)) / 146097 = y / 400 := by omega
  rw [hmod, hdiv, civilOfDoe_dec20 (y % 400) hm]
  have hy : y % 400 + y / 400 * 400 = y := by omega
  simp only [hy]
  rw [String.append_assoc, show pad2 12 ++ pad2 20 = ("1220" : String) from by decide]

theorem filterMap_flatMap {α β γ : Type} (l : List α) (f : α → List β) (g : β → Option γ) :
    (l.flatMap f).filterMap g = l.flatMap (fun x => (f x).filterMap g) := by
  induction l with
  | nil => rfl
  | cons a l ih => simp [List.flatMap_cons, List.filterMap_append, ih]

/-- The export's event list is the per-triple `filterMap` of
`create_recurring_events`. -/
theorem exportEvents_eq_filterMap (cat : Catalog) (schedule : List ScheduleItem)
    (semester : String) (year todayRd : Nat) (nowStr : String) :
    exportEvents cat schedule semester year todayRd nowStr =
      (exportTriples cat schedule semester).filterMap
        (tripleEvent semester year todayRd nowStr) := by
  unfold exportEvents exportTriples
  show schedule.flatMap (fun item =>
      match get_course_by_code_and_semester cat item.course_code semester with
      | some course =>
        match course.subclasses.lookup item.subclass with
        | some sc =>
          sc.time_slots.flatMap (fun ts =>
            ts.days.filterMap (fun day =>
              create_recurring_events course ts day
                (get_semester_dates semester year todayRd).1
                (get_semester_dates semester year todayRd).2
                item.course_code item.subclass nowStr))
        | none => []
      | none => []) = _
  rw [filterMap_flatMap]
  congr 1
  funext item
  rcases hc : get_course_by_code_and_semester cat item.course_code semester with _ | course
  · simp only [itemTriples, hc]
    rfl
  · rcases hs : course.subclasses.lookup item.subclass with _ | sc
    · simp only [itemTriples, hc, hs]
      rfl
    · simp only [itemTriples, hc, hs]
      rw [filterMap_flatMap]
      congr 1
      funext ts
      rw [List.filterMap_map]
      rfl

/-- A triple emits an event exactly when its day code is recognised and both
times parse. -/
theorem tripleEvent_isSome (semester : String) (year todayRd : Nat) (nowStr : String)
    (tr : ExportTriple) :
    (tripleEvent semester year todayRd nowStr tr).isSome =
      ((day_mapping tr.day).isSome && (parseTimeExport tr.slot.start_time).isSome
        && (parseTimeExport tr.slot.end_time).isSome) := by
  unfold tripleEvent create_recurring_events
  rcases day_mapping tr.day with _ | t
  · rfl
  rcases parseTimeExport tr.slot.start_time with _ | st <;>
    rcases parseTimeExport tr.slot.end_time with _ | et <;> rfl

theorem length_filterMap_eq {α β : Type} (f : α → Option β) (l : List α) :
    (l.filterMap f).length = (l.filter (fun a => (f a).isSome)).length := by
  induction l with
  | nil => rfl
  | cons a l ih =>
    rw [List.filterMap_cons, List.filter_cons]
    rcases hf : f a with _ | b
    · simp [hf, ih]
    · simp [hf, ih]

/-- The conflict expansion is the record image of the export triples. -/
theorem expandSlots_eq_map_triples (cat : Catalog) (schedule : List ScheduleItem)
    (semester : String) :
    expandSlots cat schedule semester =
      (exportTriples cat schedule semester).map tripleRec := by
  unfold expandSlots exportTriples
  rw [List.map_flatMap]
  congr 1
  funext item
  rcases hc : get_course_by_code_and_semester cat item.course_code semester with _ | course
  · simp only [itemTriples, hc]
    rfl
  · rcases hs : course.subclasses.lookup item.subclass with _ | sc
    · simp only [itemTriples, hc, hs]
      rfl
    · simp only [itemTriples, hc, hs]
      rw [List.map_flatMap]
      congr 1
      funext ts
      rw [List.map_map]
      rfl

theorem sublist_pair_map {α β : Type} (g : α → β) :
    ∀ (l : List α) (y1 y2 : β), List.Sublist [y1, y2] (l.map g) →
      ∃ x1 x2, List.Sublist [x1, x2] l ∧ g x1 = y1 ∧ g x2 = y2 := by
  intro l
  induction l with
  | nil => intro y1 y2 h; cases h
  | cons x l ih =>
    intro y1 y2 h
    rw [List.map_cons] at h
    cases h with
    | cons _ h' =>
      obtain ⟨x1, x2, hsub, h1, h2⟩ := ih y1 y2 h'
      exact ⟨x1, x2, hsub.cons x, h1, h2⟩
    | cons₂ _ h' =>
      obtain ⟨x2, hx2, h2⟩ := List.mem_map.mp (List.singleton_sublist.mp h')
      exact ⟨x, x2, List.Sublist.cons₂ x (List.singleton_sublist.mpr hx2), rfl, h2⟩

theorem sublist_pair_filterMap {α β : Type} (f : α → Option β) :
    ∀ (l : List α) (e1 e2 : β), List.Sublist [e1, e2] (l.filterMap f) →
      ∃ t1 t2, List.Sublist [t1, t2] l ∧ f t1 = some e1 ∧ f t2 = some e2 := by
  intro l
  induction l with
  | nil => intro e1 e2 h; rw [List.filterMap_nil] at h; cases h
  | cons x l ih =>
    intro e1 e2 h
    rw [List.filterMap_cons] at h
    rcases hfx : f x with _ | b <;> rw [hfx] at h
    · obtain ⟨t1, t2, hsub, h1, h2⟩ := ih e1 e2 h
      exact ⟨t1, t2, hsub.cons x, h1, h2⟩
    · cases h with
      | cons _ h' =>
        obtain ⟨t1, t2, hsub, h1, h2⟩ := ih e1 e2 h'
        exact ⟨t1, t2, hsub.cons x, h1, h2⟩
      | cons₂ _ h' =>
        obtain ⟨t2, ht2, h2⟩ := List.mem_filterMap.mp (List.singleton_sublist.mp h')
        exact ⟨x, t2, List.Sublist.cons₂ x (List.singleton_sublist.mpr ht2), hfx, h2⟩

theorem pair_mem_pairList_of_sublist {α : Type} {a b : α} :
    ∀ {l : List α}, List.Sublist [a, b] l → (a, b) ∈ pairList l := by
  intro l
  induction l with
  | nil => intro h; cases h
  | cons x l ih =>
    intro h
    cases h with
    | cons _ h' =>
      unfold pairList
      exact List.mem_append_right _ (ih h')
    | cons₂ _ h' =>
      unfold pairList
      exact List.mem_append_left _
        (List.mem_map.mpr ⟨b, List.singleton_sublist.mp h', rfl⟩)

/-- The uid of an emitted event, by construction. -/
theorem create_uid_shape {course : Course} {ts : TimeSlot} {day : String}
    {sRd eRd : Nat} {code label nowStr : String} {ev : Event}
    (h : create_recurring_events course ts day sRd eRd code label nowStr = some ev) :
    ∃ t st et, day_mapping day = some t ∧ parseTimeExport ts.start_time = some st ∧
      parseTimeExport ts.end_time = some et ∧
      ev.uid = code ++ "-" ++ label ++ "-" ++ day ++ "-"
        ++ (fmtDate (firstWeekdayOnOrAfter sRd t) ++ "T" ++ fmtTime st) := by
  unfold create_recurring_events at h
  rcases hd : day_mapping day with _ | t <;> rw [hd] at h
  · exact Option.noConfusion h
  rcases hs : parseTimeExport ts.start_time with _ | st <;>
    rcases he : parseTimeExport ts.end_time with _ | et <;> rw [hs, he] at h
  · exact Option.noConfusion h
  · exact Option.noConfusion h
  · exact Option.noConfusion h
  · refine ⟨t, st, et, rfl, rfl, rfl, ?_⟩
    rw [← Option.some.inj h]
    rfl

theorem strData_append (s t : String) : (s ++ t).data = s.data ++ t.data := rfl

theorem strData_mk (l : List Char) : (String.mk l).data = l := rfl

theorem str_ext {s t : String} (h : s.data = t.data) : s = t :=
  congrArg String.mk h

/-- A well-formed time string has exactly eight characters. -/
theorem wellFormedHMS_data_length {s : String} (h : wellFormedHMS s = true) :
    s.data.length = 8 := by
  unfold wellFormedHMS at h
  rcases hs : s.data with _ | ⟨h1, _ | ⟨h2, _ | ⟨c1, _ | ⟨m1, _ | ⟨m2, _ | ⟨c2, _ | ⟨s1, _ | ⟨s2, _ | ⟨c9, rest⟩⟩⟩⟩⟩⟩⟩⟩⟩ <;>
      rw [hs] at h
  · exact Bool.noConfusion h
  · exact Bool.noConfusion h
  · exact Bool.noConfusion h
  · exact Bool.noConfusion h
  · exact Bool.noConfusion h
  · exact Bool.noConfusion h
  · exact Bool.noConfusion h
  · exact Bool.noConfusion h
  on_goal 2 => exact Bool.noConfusion h
  rfl

/-- On well-formed `"HH:MM:SS"` strings the export parser agrees with the
conflict check's parser. -/
theorem parseTimeExport_of_wellFormed {s : String} (h : wellFormedHMS s = true) :
    parseTimeExport s = some (hmsVal s) := by
  unfold parseTimeExport
  rw [if_pos (show s.length = 8 from wellFormedHMS_data_length h)]
  exact strptimeHMS_of_wellFormed h

/-- Splitting a hyphen-joined pair with hyphen-free first components. -/
theorem dash_split_chars : ∀ (a1 a2 r1 r2 : List Char), '-' ∉ a1 → '-' ∉ a2 →
    a1 ++ '-' :: r1 = a2 ++ '-' :: r2 → a1 = a2 ∧ r1 = r2 := by
  intro a1
  induction a1 with
  | nil =>
    intro a2 r1 r2 _ h2 h
    cases a2 with
    | nil =>
      simp only [List.nil_append] at h
      exact ⟨rfl, (List.cons.inj h).2⟩
    | cons c a2' =>
      simp only [List.nil_append, List.cons_append] at h
      obtain ⟨hc, _⟩ := List.cons.inj h
      cases hc
      exact absurd (List.mem_cons_self _ _) h2
  | cons c a1' ih =>
    intro a2 r1 r2 h1 h2 h
    cases a2 with
    | nil =>
      simp only [List.cons_append, List.nil_append] at h
      obtain ⟨hc, _⟩ := List.cons.inj h
      cases hc
      exact absurd (List.mem_cons_self _ _) h1
    | cons d a2' =>
      simp only [List.cons_append] at h
      obtain ⟨hcd, hrest⟩ := List.cons.inj h
      obtain ⟨ha, hr⟩ := ih a2' r1 r2 (fun hm => h1 (List.mem_cons_of_mem _ hm))
        (fun hm => h2 (List.mem_cons_of_mem _ hm)) hrest
      exact ⟨by rw [hcd, ha], hr⟩

/-- Splitting a hyphen-joined pair at the LAST hyphen: only the second
components need to be hyphen-free. -/
theorem dash_split_last (a1 a2 r1 r2 : List Char) (h1 : '-' ∉ r1) (h2 : '-' ∉ r2)
    (h : a1 ++ '-' :: r1 = a2 ++ '-' :: r2) : a1 = a2 ∧ r1 = r2 := by
  have hrev := congrArg List.reverse h
  simp only [List.reverse_append, List.reverse_cons, List.append_assoc,
    List.singleton_append] at hrev
  obtain ⟨hr, ha⟩ := dash_split_chars _ _ _ _
    (fun hm => h1 (List.mem_reverse.mp hm)) (fun hm => h2 (List.mem_reverse.mp hm)) hrev
  exact ⟨List.reverse_injective ha, List.reverse_injective hr⟩

/-- Equal uid strings determine the day and datetime components whenever the
day code and the datetime tail are hyphen-free, with no assumption on the
course code or subclass label: splitting at the last hyphen isolates the
datetime tail, splitting the remaining prefix at its last hyphen isolates
the day. -/
theorem uid_eq_day_tail {c1 l1 d1 x1 c2 l2 d2 x2 : String}
    (hd1 : '-' ∉ d1.data) (hx1 : '-' ∉ x1.data)
    (hd2 : '-' ∉ d2.data) (hx2 : '-' ∉ x2.data)
    (h : c1 ++ "-" ++ l1 ++ "-" ++ d1 ++ "-" ++ x1
        = c2 ++ "-" ++ l2 ++ "-" ++ d2 ++ "-" ++ x2) :
    d1 = d2 ∧ x1 = x2 := by
  have hdata := congrArg String.data h
  simp only [strData_append, show ("-" : String).data = ['-'] from rfl,
    List.append_assoc, List.singleton_append] at hdata
  have hL : (c1.data ++ '-' :: (l1.data ++ '-' :: d1.data)) ++ '-' :: x1.data
      = (c2.data ++ '-' :: (l2.data ++ '-' :: d2.data)) ++ '-' :: x2.data := by
    simp only [List.append_assoc, List.cons_append]
    exact hdata
  obtain ⟨hp, hx⟩ := dash_split_last _ _ _ _ hx1 hx2 hL
  have hL2 : (c1.data ++ '-' :: l1.data) ++ '-' :: d1.data
      = (c2.data ++ '-' :: l2.data) ++ '-' :: d2.data := by
    simp only [List.append_assoc, List.cons_append] at hp ⊢
    exact hp
  obtain ⟨_, hd⟩ := dash_split_last _ _ _ _ hd1 hd2 hL2
  exact ⟨str_ext hd, str_ext hx⟩

theorem digitChar_inj10 : ∀ a, a < 10 → ∀ b, b < 10 → digitChar a = digitChar b → a = b := by
  decide

theorem digitChar_eq_mod {a b : Nat} (h : digitChar a = digitChar b) : a % 10 = b % 10 := by
  have ha : digitChar (a % 10) = digitChar a := by
    unfold digitChar
    rw [show a % 10 % 10 = a % 10 from by omega]
  have hb : digitChar (b % 10) = digitChar b := by
    unfold digitChar
    rw [show b % 10 % 10 = b % 10 from by omega]
  exact digitChar_inj10 (a % 10) (by omega) (b % 10) (by omega) (by rw [ha, hb]; exact h)

/-- `strftime('%H%M%S')` is injective on times of day. -/
theorem fmtTime_inj {v1 v2 : Nat} (h1 : v1 < 86400) (h2 : v2 < 86400)
    (h : fmtTime v1 = fmtTime v2) : v1 = v2 := by
  have hd := congrArg String.data h
  unfold fmtTime pad2 at hd
  simp only [strData_append, strData_mk, List.cons_append, List.nil_append,
    List.cons.injEq, and_true] at hd
  obtain ⟨e1, e2, e3, e4, e5, e6⟩ := hd
  have q1 := digitChar_eq_mod e1
  have q2 := digitChar_eq_mod e2
  have q3 := digitChar_eq_mod e3
  have q4 := digitChar_eq_mod e4
  have q5 := digitChar_eq_mod e5
  have q6 := digitChar_eq_mod e6
  omega

/-- A `strftime` digit is never a hyphen. -/
theorem digitChar_ne_dash (n : Nat) : digitChar n ≠ '-' := by
  have h : digitChar (n % 10) = digitChar n := by
    unfold digitChar
    rw [show n % 10 % 10 = n % 10 from by omega]
  rw [← h]
  exact (by decide : ∀ k, k < 10 → digitChar k ≠ '-') (n % 10) (by omega)

theorem pad2_no_dash (n : Nat) : '-' ∉ (pad2 n).data := by
  intro hm
  simp only [pad2, strData_mk, List.mem_cons, List.not_mem_nil, or_false] at hm
  rcases hm with hm | hm <;> exact digitChar_ne_dash _ hm.symm

theorem pad4_no_dash (n : Nat) : '-' ∉ (pad4 n).data := by
  intro hm
  simp only [pad4, strData_mk, List.mem_cons, List.not_mem_nil, or_false] at hm
  rcases hm with hm | hm | hm | hm <;> exact digitChar_ne_dash _ hm.symm

theorem fmtTime_no_dash (n : Nat) : '-' ∉ (fmtTime n).data := by
  intro hm
  simp only [fmtTime, strData_append, List.mem_append] at hm
  rcases hm with (hm | hm) | hm <;> exact pad2_no_dash _ hm

theorem fmtDate_no_dash (rd : Nat) : '-' ∉ (fmtDate rd).data := by
  intro hm
  have hm' : '-' ∈ (pad4 (civilFromDays rd).1 ++ pad2 (civilFromDays rd).2.1
      ++ pad2 (civilFromDays rd).2.2).data := hm
  simp only [strData_append, List.mem_append] at hm'
  rcases hm' with (hm' | hm') | hm'
  · exact pad4_no_dash _ hm'
  · exact pad2_no_dash _ hm'
  · exact pad2_no_dash _ hm'

/-- The `%Y%m%dT%H%M%S` tail of a uid contains no hyphen. -/
theorem fmtDateTail_no_dash (rd st : Nat) :
    '-' ∉ (fmtDate rd ++ "T" ++ fmtTime st).data := by
  intro hm
  simp only [strData_append, List.mem_append] at hm
  rcases hm with (hm | hm) | hm
  · exact fmtDate_no_dash _ hm
  · exact absurd hm (by decide)
  · exact fmtTime_no_dash _ hm

/-- A recognised day code contains no hyphen. -/
theorem day_mapping_no_dash {day : String} {t : Nat} (h : day_mapping day = some t) :
    '-' ∉ day.data := by
  unfold day_mapping at h
  split_ifs at h <;> (subst_vars; decide)

/-- Claim C5 fails as stated: `catZ`'s schedule passes the conflict check
(the zero-duration Monday slot touches rather than overlaps the second
slot), yet two of the exported blocks carry the same UID
(`COMP104-1D-MON-20250901T090000`). -/
theorem C5_counterexample :
    get_time_conflict catZ schedZ "Sem1" = []
      ∧ ¬ ((exportEvents catZ schedZ "Sem1" 2025 0 "now").map (fun e => e.uid)).Nodup :=
  ⟨by decide, by decide⟩

/-- Claim C5 amended: the export emits exactly one recurring block per
(selection, slot, weekday) triple whose weekday is recognised and whose
times parse; and, when the schedule passes the conflict check, no two
blocks share a UID provided additionally that all involved time strings are
well-formed `"HH:MM:SS"` with start strictly before end (zero-duration or
same-start slots, which the conflict check does not flag, can otherwise
collide: the original claim fails exactly there). -/
theorem C5_export_blocks_and_uid_uniqueness :
    (∀ (cat : Catalog) (schedule : List ScheduleItem) (semester : String)
        (year todayRd : Nat) (nowStr : String),
      exportEvents cat schedule semester year todayRd nowStr =
          (exportTriples cat schedule semester).filterMap
            (tripleEvent semester year todayRd nowStr)
        ∧ (exportEvents cat schedule semester year todayRd nowStr).length =
            ((exportTriples cat schedule semester).filter (fun tr =>
              (day_mapping tr.day).isSome && (parseTimeExport tr.slot.start_time).isSome
                && (parseTimeExport tr.slot.end_time).isSome)).length)
    ∧ (∀ (cat : Catalog) (schedule : List ScheduleItem) (semester : String)
        (year todayRd : Nat) (nowStr : String),
      (∀ tr ∈ exportTriples cat schedule semester,
        wellFormedHMS tr.slot.start_time = true ∧ wellFormedHMS tr.slot.end_time = true
          ∧ hmsVal tr.slot.start_time < hmsVal tr.slot.end_time) →
      get_time_conflict cat schedule semester = [] →
      ((exportEvents cat schedule semester year todayRd nowStr).map (fun e => e.uid)).Nodup) := by
  constructor
  · intro cat schedule semester year todayRd nowStr
    refine ⟨exportEvents_eq_filterMap .., ?_⟩
    rw [exportEvents_eq_filterMap, length_filterMap_eq]
    congr 1
    apply List.filter_congr
    intro tr _
    rw [tripleEvent_isSome]
  · intro cat schedule semester year todayRd nowStr hwf hconf
    rw [List.nodup_iff_sublist]
    intro u hu
    rw [exportEvents_eq_filterMap] at hu
    obtain ⟨e1, e2, hsubE, hue1, hue2⟩ := sublist_pair_map _ _ u u hu
    obtain ⟨t1, t2, hsub, hf1, hf2⟩ := sublist_pair_filterMap _ _ e1 e2 hsubE
    have hm1 : t1 ∈ exportTriples cat schedule semester := hsub.subset (by simp)
    have hm2 : t2 ∈ exportTriples cat schedule semester := hsub.subset (by simp)
    obtain ⟨ta, st1, et1, hda, hsa, hea, huid1⟩ := create_uid_shape hf1
    obtain ⟨tb, st2, et2, hdb, hsb, heb, huid2⟩ := create_uid_shape hf2
    have huid : t1.code ++ "-" ++ t1.label ++ "-" ++ t1.day ++ "-"
          ++ (fmtDate (firstWeekdayOnOrAfter
              (get_semester_dates semester year todayRd).1 ta) ++ "T" ++ fmtTime st1)
        = t2.code ++ "-" ++ t2.label ++ "-" ++ t2.day ++ "-"
          ++ (fmtDate (firstWeekdayOnOrAfter
              (get_semester_dates semester year todayRd).1 tb) ++ "T" ++ fmtTime st2) := by
      rw [← huid1, ← huid2, hue1, hue2]
    obtain ⟨hdayeq, hx⟩ := uid_eq_day_tail (day_mapping_no_dash hda) (fmtDateTail_no_dash _ _)
      (day_mapping_no_dash hdb) (fmtDateTail_no_dash _ _) huid
    have htab : ta = tb := by
      have h1 := hda.symm.trans (show day_mapping t1.day = some tb from by rw [hdayeq]; exact hdb)
      exact Option.some.inj h1
    have hv1 : st1 = hmsVal t1.slot.start_time :=
      Option.some.inj (hsa.symm.trans (parseTimeExport_of_wellFormed (hwf t1 hm1).1))
    have hv2 : st2 = hmsVal t2.slot.start_time :=
      Option.some.inj (hsb.symm.trans (parseTimeExport_of_wellFormed (hwf t2 hm2).1))
    have hst : st1 = st2 := by
      rw [htab] at hx
      have hdx := congrArg String.data hx
      simp only [strData_append] at hdx
      have hcan := List.append_cancel_left hdx
      have hb1 : st1 < 86400 := by
        rw [hv1]
        exact hmsVal_lt_of_wellFormed (hwf t1 hm1).1
      have hb2 : st2 < 86400 := by
        rw [hv2]
        exact hmsVal_lt_of_wellFormed (hwf t2 hm2).1
      exact fmtTime_inj hb1 hb2 (str_ext hcan)
    have hse : hmsVal t1.slot.start_time = hmsVal t2.slot.start_time := by
      rw [← hv1, ← hv2, hst]
    have d1 := (hwf t1 hm1).2.2
    have d2 := (hwf t2 hm2).2.2
    have hks : List.Sublist [tripleRec t1, tripleRec t2]
        (expandSlots cat schedule semester) := by
      rw [expandSlots_eq_map_triples]
      exact hsub.map tripleRec
    have hcond : conflictCond (tripleRec t1) (tripleRec t2) = true := by
      have hov : _time_overlap t1.slot.start_time t1.slot.end_time
          t2.slot.start_time t2.slot.end_time = true :=
        (_time_overlap_iff (hwf t1 hm1).1 (hwf t1 hm1).2.1
          (hwf t2 hm2).1 (hwf t2 hm2).2.1).mpr (by omega)
      show ((t1.day == t2.day) && _time_overlap t1.slot.start_time t1.slot.end_time
        t2.slot.start_time t2.slot.end_time) = true
      rw [hdayeq, hov]
      simp
    have hpair : ((tripleRec t1).course, (tripleRec t2).course) ∈
        get_time_conflict cat schedule semester :=
      conflictPairs_mem (pair_mem_pairList_of_sublist hks) hcond
    rw [hconf] at hpair
    cases hpair

/-- Witness for the amended C5 on the conflict-free `catV` schedule: every
uid of the exported events is distinct. -/
theorem C5_export_blocks_and_uid_uniqueness_witness :
    ((exportEvents catV schedV "Sem1" 2025 0 "now").map (fun e => e.uid)).Nodup :=
  C5_export_blocks_and_uid_uniqueness.2 catV schedV "Sem1" 2025 0 "now"
    (by decide) (by decide)

/-- Claim C6: for Sem1 the export window is Sep 1 – Dec 20 of the current
year; each emitted weekly event is anchored on the first calendar date on or
after Sep 1 whose weekday matches the slot's day code (with no earlier
matching date), its recurrence rule terminates at Dec 20 end-of-day
(`UNTIL=<year>1220T235959`), and a slot whose time strings fail to parse
yields no event (`none`) instead of failing the export. -/
theorem C6_sem1_anchor_and_bound (year todayRd : Nat) (course : Course) (ts : TimeSlot)
    (day code label nowStr : String) (t st et : Nat)
    (hday : day_mapping day = some t)
    (hst : parseTimeExport ts.start_time = some st)
    (het : parseTimeExport ts.end_time = some et) :
    get_semester_dates "Sem1" year todayRd =
        (daysFromCivil year 9 1, daysFromCivil year 12 20)
      ∧ (∃ ev, create_recurring_events course ts day (daysFromCivil year 9 1)
            (daysFromCivil year 12 20) code label nowStr = some ev
          ∧ ev.dtstart = fmtDate (firstWeekdayOnOrAfter (daysFromCivil year 9 1) t)
              ++ "T" ++ fmtTime st
          ∧ weekday (firstWeekdayOnOrAfter (daysFromCivil year 9 1) t) = t
          ∧ daysFromCivil year 9 1 ≤ firstWeekdayOnOrAfter (daysFromCivil year 9 1) t
          ∧ (∀ b, daysFromCivil year 9 1 ≤ b →
              b < firstWeekdayOnOrAfter (daysFromCivil year 9 1) t → weekday b ≠ t)
          ∧ ev.rrule = "FREQ=WEEKLY;UNTIL=" ++ (pad4 year ++ "1220") ++ "T235959")
      ∧ (∀ ts2 : TimeSlot,
          (parseTimeExport ts2.start_time = none ∨ parseTimeExport ts2.end_time = none) →
          create_recurring_events course ts2 day (daysFromCivil year 9 1)
            (daysFromCivil year 12 20) code label nowStr = none) := by
  have hwin : get_semester_dates "Sem1" year todayRd =
      (daysFromCivil year 9 1, daysFromCivil year 12 20) := by
    unfold get_semester_dates
    rw [if_pos rfl]
  refine ⟨hwin, ?_, ?_⟩
  · unfold create_recurring_events
    rw [hday, hst, het]
    obtain ⟨hwd, hle, hmin⟩ := advanceLoop_spec (daysFromCivil year 9 1) t (day_mapping_lt hday)
    refine ⟨_, rfl, rfl, hwd, hle, hmin, ?_⟩
    show "FREQ=WEEKLY;UNTIL=" ++ fmtDate (daysFromCivil year 12 20) ++ "T235959" = _
    rw [fmtDate_sem1_end]
  · intro ts2 hbad
    unfold create_recurring_events
    rw [hday]
    rcases hbad with hbad | hbad
    · rw [hbad]
    · rw [hbad]
      rcases parseTimeExport ts2.start_time with _ | v <;> rfl

/-- Witness for C6: the Sem1 window for 2025 and a skipped unparsable slot. -/
theorem C6_sem1_anchor_and_bound_witness :
    get_semester_dates "Sem1" 2025 0 = (daysFromCivil 2025 9 1, daysFromCivil 2025 12 20)
      ∧ create_recurring_events courseA slotTBA "MON" (daysFromCivil 2025 9 1)
          (daysFromCivil 2025 12 20) "COMP101" "1A" "" = none :=
  ⟨(C6_sem1_anchor_and_bound 2025 0 courseA slotA "MON" "COMP101" "1A" "" 0 32400 36000
      (by decide) (by decide) (by decide)).1,
   (C6_sem1_anchor_and_bound 2025 0 courseA slotA "MON" "COMP101" "1A" "" 0 32400 36000
      (by decide) (by decide) (by decide)).2.2 slotTBA (Or.inl (by decide))⟩

/-- The two sequential `if`s of the search loop compute `searchPredSpec`. -/
theorem search_step_eq (query department : String) (p : String × Course) :
    (if (strUpper department ≠ "")
        && (if strLower query ≠ "" then
              (substrB (strLower query) (strLower p.1)
                || substrB (strLower query) (strLower p.2.title))
            else true) then
      substrB (strUpper department) (strUpper p.2.department)
    else (if strLower query ≠ "" then
        (substrB (strLower query) (strLower p.1)
          || substrB (strLower query) (strLower p.2.title))
      else true))
    = searchPredSpec query department p := by
  unfold searchPredSpec
  by_cases hq : strLower query = "" <;> by_cases hd : strUpper department = "" <;>
    simp [hq, hd] <;>
    cases substrB (strLower query) (strLower p.1) <;>
    cases substrB (strLower query) (strLower p.2.title) <;>
    simp [hq, hd]

/-- The search loop appends exactly the passing courses, in stored order. -/
theorem search_courses_eq (cat : Catalog) (query department semester : String) :
    search_courses cat query department semester =
      ((cat.get semester).filter (searchPredSpec query department)).map Prod.snd := by
  unfold search_courses
  generalize cat.get semester = l
  suffices h : ∀ acc : List Course,
      l.foldl (fun results p =>
        let m1 := if strLower query ≠ "" then
            (substrB (strLower query) (strLower p.1)
              || substrB (strLower query) (strLower p.2.title))
          else true
        let m2 := if strUpper department ≠ "" && m1 then
            substrB (strUpper department) (strUpper p.2.department)
          else m1
        if m2 then results ++ [p.2] else results) acc
      = acc ++ (l.filter (searchPredSpec query department)).map Prod.snd by
    simpa using h []
  induction l with
  | nil => intro acc; simp
  | cons p l ih =>
    intro acc
    rw [List.foldl_cons]
    have hbody : (let m1 := if strLower query ≠ "" then
            (substrB (strLower query) (strLower p.1)
              || substrB (strLower query) (strLower p.2.title))
          else true
        let m2 := if strUpper department ≠ "" && m1 then
            substrB (strUpper department) (strUpper p.2.department)
          else m1
        if m2 then acc ++ [p.2] else acc)
        = if searchPredSpec query department p then acc ++ [p.2] else acc := by
      show (if (if (strUpper department ≠ "")
          && (if strLower query ≠ "" then
                (substrB (strLower query) (strLower p.1)
                  || substrB (strLower query) (strLower p.2.title))
              else true) then
          substrB (strUpper department) (strUpper p.2.department)
        else (if strLower query ≠ "" then
            (substrB (strLower query) (strLower p.1)
              || substrB (strLower query) (strLower p.2.title))
          else true)) = true then acc ++ [p.2] else acc)
        = if searchPredSpec query department p then acc ++ [p.2] else acc
      rw [search_step_eq query department p]
    rw [hbody]
    by_cases hp : searchPredSpec query department p
    · rw [if_pos hp, ih, List.filter_cons, if_pos (by exact hp)]
      simp
    · rw [if_neg hp, ih, List.filter_cons, if_neg (by simpa using hp)]

/-- Claim C7: `search_courses` returns exactly the stored offerings of the
requested semester that pass the query filter (case-insensitive substring of
code or title, when the query is nonempty) and the department filter
(case-insensitive substring, when nonempty), in the stored insertion order;
a semester outside {Sem1, Sem2, Summer, Other} yields the empty list (the
lookup totalizes to an empty partition, so no exception can arise). -/
theorem C7_search_semantics (cat : Catalog) (query department semester : String) :
    (search_courses cat query department semester =
        ((cat.get semester).filter (searchPredSpec query department)).map Prod.snd)
      ∧ (semester ∉ (["Sem1", "Sem2", "Summer", "Other"] : List String) →
          search_courses cat query department semester = []) := by
  refine ⟨search_courses_eq cat query department semester, ?_⟩
  intro hsem
  have hget : cat.get semester = [] := by
    unfold Catalog.get
    split_ifs <;> first | rfl | (exfalso; apply hsem; subst_vars; simp)
  rw [search_courses_eq, hget]
  rfl

/-- Witness for C7: a concrete catalog search and an unknown semester. -/
theorem C7_search_semantics_witness :
    search_courses catAB "data" "" "Sem1" =
        ((catAB.get "Sem1").filter (searchPredSpec "data" "")).map Prod.snd
      ∧ search_courses catAB "data" "" "Autumn" = [] :=
  ⟨(C7_search_semantics catAB "data" "" "Sem1").1,
   (C7_search_semantics catAB "data" "" "Autumn").2 (by decide)⟩

/-- Claim C8: the descriptive fields (title, department, term, career) of
every stored CourseOffering for a course code — whichever semester it is
stored under — come from the first row of the entire course_code group in
input order (`course_group.iloc[0]`), not from the per-semester group. -/
theorem C8_metadata_from_first_row (rows : List Row) (semester code : String) (off : Course)
    (h : ((process_courses rows).get semester).lookup code = some off) :
    ((courseGroup (validRows rows) code).head?).map (fun r => strOf r.course_title)
        = some off.title
      ∧ ((courseGroup (validRows rows) code).head?).map (fun r => strOf r.offer_dept)
        = some off.department
      ∧ ((courseGroup (validRows rows) code).head?).map (fun r => strOf r.term)
        = some off.term
      ∧ ((courseGroup (validRows rows) code).head?).map (fun r => strOf r.acad_career)
        = some off.career := by
  unfold process_courses at h
  rcases codesFold_lookup_shape (validRows rows) (sortedCodes rows) ⟨[], [], [], []⟩
      code semester off h with ⟨sem, info, hh, rfl⟩ | hbase
  · rw [hh]
    exact ⟨rfl, rfl, rfl, rfl⟩
  · exfalso
    have hempty : (Catalog.get ⟨[], [], [], []⟩ semester).lookup code = none := by
      unfold Catalog.get
      split_ifs <;> rfl
    rw [hempty] at hbase
    exact Option.noConfusion hbase

/-- Witness for C8: with one course appearing in Sem1 (titled row first) and
Sem2, the Sem2 offering's title still comes from the group's first row. -/
theorem C8_metadata_from_first_row_witness :
    ((courseGroup (validRows [rowR1, rowR2]) "COMP101").head?).map
        (fun r => strOf r.course_title)
      = some (mkCourse "COMP101" "Sem2" rowR1
          (semGroupEntries (courseGroup (validRows [rowR1, rowR2]) "COMP101") "Sem2")).title :=
  (C8_metadata_from_first_row [rowR1, rowR2] "Sem2" "COMP101"
    (mkCourse "COMP101" "Sem2" rowR1
      (semGroupEntries (courseGroup (validRows [rowR1, rowR2]) "COMP101") "Sem2"))
    (by decide)).1

/-- Claim C4: every subclass that the builder stores for a class-number group
keeps exactly one time slot per distinct order-independent day-set — the
group's first entry with that day-set, carrying that entry's
times/venue/instructor — in first-seen order: the slot list is the
first-occurrence-per-day-set subsequence of the group, its day-set keys are
pairwise distinct, and every entry's day-set is represented. -/
theorem C4_dedup_time_slots (entries : List Entry) :
    ∀ p ∈ subclassesOf entries,
      p.2.time_slots =
          (keepFirstsBy (fun e => daysKey e.days)
            (entries.filter (fun e => e.class_number == p.2.class_number))).map entryToSlot
        ∧ (p.2.time_slots.map (fun ts => daysKey ts.days)).Nodup
        ∧ ∀ e ∈ entries.filter (fun e => e.class_number == p.2.class_number),
            daysKey e.days ∈ p.2.time_slots.map (fun ts => daysKey ts.days) := by
  intro p hp
  obtain ⟨cn, hmk⟩ := mem_subclassesOf hp
  rcases hg : entries.filter (fun e => e.class_number == cn) with _ | ⟨e, rest⟩ <;>
    rw [hg] at hmk
  · exact Option.noConfusion hmk
  have hsub := Option.some.inj hmk
  have hcn : p.2.class_number = cn := by rw [← hsub]
  have hts : p.2.time_slots = slotsLoop [] [] (e :: rest) := by rw [← hsub]
  rw [hcn, hg, hts, slotsLoop_eq]
  have hfilter : (e :: rest).filter (fun x => daysKey x.days ∉ ([] : List (List String))) =
      e :: rest := by
    apply List.filter_eq_self.mpr
    intro a _
    simp
  rw [hfilter, List.nil_append]
  have hmapkeys : ∀ l : List Entry,
      (l.map entryToSlot).map (fun ts => daysKey ts.days) = l.map (fun x => daysKey x.days) := by
    intro l
    rw [List.map_map]
    rfl
  refine ⟨rfl, ?_, ?_⟩
  · rw [hmapkeys]
    exact keepFirstsBy_keys_nodup _ _
  · intro x hx
    rw [hmapkeys]
    exact keepFirstsBy_keys_cover _ _ x hx

/-- Witness for C4 on a three-entry group with a repeated `["MON"]` day-set:
the first and the `["WED"]` entry survive, in order. -/
theorem C4_dedup_time_slots_witness :
    subF.time_slots =
        (keepFirstsBy (fun e => daysKey e.days)
          ([entF1, entF2, entF3].filter
            (fun e => e.class_number == subF.class_number))).map entryToSlot
      ∧ (subF.time_slots.map (fun ts => daysKey ts.days)).Nodup :=
  ⟨(C4_dedup_time_slots [entF1, entF2, entF3] ("1A", subF) (by decide)).1,
   (C4_dedup_time_slots [entF1, entF2, entF3] ("1A", subF) (by decide)).2.1⟩

/-- Claim C9: when exactly two class-number groups exist and their first
entries share the same section string, the builder stores both subclasses
under that single label, the later one replacing the earlier in place, so
the mapping is the one binding to the later group's subclass and no stored
subclass carries the earlier class number. -/
theorem C9_section_label_collision (entries : List Entry) (cn1 cn2 : String)
    (sc1 sc2 : Subclass)
    (hkeys : firstDedup (entries.map (fun e => e.class_number)) = [cn1, cn2])
    (h1 : mkSubclass cn1 (entries.filter (fun e => e.class_number == cn1)) = some sc1)
    (h2 : mkSubclass cn2 (entries.filter (fun e => e.class_number == cn2)) = some sc2)
    (hlabel : sc1.label = sc2.label) :
    subclassesOf entries = [(sc2.label, sc2)]
      ∧ cn1 ≠ cn2
      ∧ sc2.class_number = cn2
      ∧ ∀ p ∈ subclassesOf entries, p.2.class_number ≠ cn1 := by
  have hnodup : ([cn1, cn2] : List String).Nodup := by
    rw [← hkeys]
    exact firstDedup_nodup _
  have hne : cn1 ≠ cn2 := by
    rcases List.nodup_cons.mp hnodup with ⟨hn, _⟩
    simpa using hn
  have hcn2 : sc2.class_number = cn2 := by
    rcases hg : entries.filter (fun e => e.class_number == cn2) with _ | ⟨e, rest⟩ <;>
      rw [hg] at h2
    · exact Option.noConfusion h2
    · rw [← Option.some.inj h2]
  have hmap : subclassesOf entries = [(sc2.label, sc2)] := by
    unfold subclassesOf
    rw [hkeys]
    simp only [List.foldl_cons, List.foldl_nil, h1, h2]
    have step1 : dictInsert ([] : List (String × Subclass)) sc1.label sc1 =
        [(sc1.label, sc1)] := by
      unfold dictInsert
      simp
    rw [step1]
    unfold dictInsert
    rw [if_pos (by simp [hlabel]), List.map_singleton, if_pos (by simp [hlabel])]
  refine ⟨hmap, hne, hcn2, ?_⟩
  intro p hp
  rw [hmap] at hp
  rcases List.mem_singleton.mp hp with rfl
  rw [hcn2]
  exact fun h => hne h.symm

/-- Witness for C9 on `[entE1, entE2]`: both class numbers label themselves
`"1A"`, and only the `"1002"` subclass survives. -/
theorem C9_section_label_collision_witness :
    subclassesOf [entE1, entE2] = [(subE2.label, subE2)] ∧ "1001" ≠ "1002" :=
  ⟨(C9_section_label_collision [entE1, entE2] "1001" "1002"
      ⟨"1A", "1A", "1001", "I1", [entryToSlot entE1]⟩ subE2
      (by decide) (by decide) (by decide) (by decide)).1,
   (C9_section_label_collision [entE1, entE2] "1001" "1002"
      ⟨"1A", "1A", "1001", "I1", [entryToSlot entE1]⟩ subE2
      (by decide) (by decide) (by decide) (by decide)).2.1⟩

/-- Claim C10: the conflict check also compares records arising from one
single selection.  If a selected subclass has two time slots sharing a day
with overlapping times, the conflict list of the singleton schedule is
nonempty, every reported pair has identical descriptions, and adding that
subclass to an empty schedule is rejected with TimeConflict. -/
theorem C10_intra_selection_conflict (cat : Catalog) (code label semester : String)
    (course : Course) (sc : Subclass) (ts1 ts2 : TimeSlot)
    (pre mid tail : List TimeSlot) (d : String)
    (hcc : code ≠ "") (hsc : label ≠ "")
    (hcourse : get_course_by_code_and_semester cat code semester = some course)
    (hsub : course.subclasses.lookup label = some sc)
    (hslots : sc.time_slots = (pre ++ [ts1]) ++ (mid ++ ts2 :: tail))
    (hd1 : d ∈ ts1.days) (hd2 : d ∈ ts2.days)
    (hov : _time_overlap ts1.start_time ts1.end_time ts2.start_time ts2.end_time = true) :
    get_time_conflict cat [⟨code, label⟩] semester ≠ []
      ∧ (∀ p ∈ get_time_conflict cat [⟨code, label⟩] semester, p.1 = p.2)
      ∧ api_schedule_post cat [] code label semester =
          (.timeConflict (get_time_conflict cat [⟨code, label⟩] semester), []) := by
  have hexp := @expandSlots_singleton cat ⟨code, label⟩ semester course sc hcourse hsub
  have hconf : (slotRec code label ts1 d).course ∈
      (get_time_conflict cat [⟨code, label⟩] semester).map Prod.fst := by
    apply List.mem_map.mpr
    refine ⟨((slotRec code label ts1 d).course, (slotRec code label ts2 d).course), ?_, rfl⟩
    unfold get_time_conflict
    rw [hexp, hslots, List.flatMap_append]
    apply conflictPairs_mem
    · exact mem_pairList_append (slotRec_mem (List.mem_append_right _ (List.mem_singleton.mpr rfl)) hd1)
        (slotRec_mem (List.mem_append_right _ (List.mem_cons_self _ _)) hd2)
    · unfold conflictCond
      rw [Bool.and_eq_true, beq_iff_eq]
      exact ⟨rfl, hov⟩
  have hne : get_time_conflict cat [⟨code, label⟩] semester ≠ [] := by
    intro h
    rw [h] at hconf
    cases hconf
  refine ⟨hne, ?_, ?_⟩
  · intro p hp
    obtain ⟨q, hq, hc, rfl⟩ := mem_conflictPairs_inv hp
    obtain ⟨hq1, hq2⟩ := mem_of_mem_pairList hq
    rw [course_of_mem_expandSingleton hq1, course_of_mem_expandSingleton hq2]
  · unfold api_schedule_post
    rw [if_neg (by push_neg; exact ⟨hcc, hsc⟩), hcourse]
    simp only [hsub, Option.isNone_some, Bool.false_eq_true, if_false, List.any_nil,
      List.map_nil, List.nil_append, List.isEmpty_eq_false.mpr hne]

/-- Witness for C10 on `catX`, whose only subclass has two overlapping
Monday slots. -/
theorem C10_intra_selection_conflict_witness :
    get_time_conflict catX [⟨"COMP103", "1C"⟩] "Sem1" ≠ []
      ∧ api_schedule_post catX [] "COMP103" "1C" "Sem1" =
          (.timeConflict (get_time_conflict catX [⟨"COMP103", "1C"⟩] "Sem1"), []) :=
  ⟨(C10_intra_selection_conflict catX "COMP103" "1C" "Sem1" courseX
      ⟨"1C", "1C", "1003", "I1", [slotX1, slotX2]⟩ slotX1 slotX2 [] [] [] "MON"
      (by decide) (by decide) (by decide) (by decide) (by decide) (by decide)
      (by decide) (by decide)).1,
    (C10_intra_selection_conflict catX "COMP103" "1C" "Sem1" courseX
      ⟨"1C", "1C", "1003", "I1", [slotX1, slotX2]⟩ slotX1 slotX2 [] [] [] "MON"
      (by decide) (by decide) (by decide) (by decide) (by decide) (by decide)
      (by decide) (by decide)).2.2⟩

end Planner
